import Mathlib

/-!
# SoupScrape — formal model of the site-mirroring engine

A shallow embedding, in Lean 4, of the URL handling, path mapping, link
rewriting and crawl-scheduling logic of `scrape.py` and of the URL handling of
`imagesonly.py`, together with theorems settling the specification claims.

Python strings are modelled as `List Char` (wrapped in `String` at the same
points where the source manipulates `str` values).  The relevant parts of the
Python standard library that the source calls (`urllib.parse.urlparse`,
`urljoin`, `urldefrag`, `os.path.join/normpath/splitext/dirname` in their POSIX
form, and `hashlib.sha1(...).hexdigest()`) are transcribed from CPython.
Machine words in SHA-1 are `Nat` reduced `% 2^32`.

Modelling notes, applying throughout:
* the IPv6-bracket `ValueError` paths of `urlsplit` (raised for URLs whose
  netloc contains `[` or `]`) and the non-ASCII NFKC check `_checknetloc` are
  not modelled; the model is faithful for ASCII URLs without brackets;
* `os.path` is modelled as `posixpath` (separator `/`);
* file-system writes, HTTP transport, timing delays and thread scheduling are
  not modelled; the concurrent resource batch is modelled as dispatching in
  submission order, which determines the same set of fetch events and the same
  final map contents for the properties proved here.
-/

set_option maxRecDepth 10000

namespace PyStr

/-- Whitespace, as Python's `str.strip()` / `str.isspace()` sees it
(ASCII whitespace, the C0 separators, NEL, NBSP and the Unicode spaces). -/
def isSpace (c : Char) : Bool :=
  c = ' ' || c = '\t' || c = '\n' || c = '\x0b' || c = '\x0c' || c = '\r' ||
  c.toNat = 0x1c || c.toNat = 0x1d || c.toNat = 0x1e || c.toNat = 0x1f ||
  c.toNat = 0x85 || c.toNat = 0xa0 || c.toNat = 0x1680 ||
  (0x2000 ≤ c.toNat && c.toNat ≤ 0x200a) ||
  c.toNat = 0x2028 || c.toNat = 0x2029 || c.toNat = 0x202f ||
  c.toNat = 0x205f || c.toNat = 0x3000

/-- `str.lower()` on ASCII letters (the source only lowercases URLs/schemes). -/
def lowerChar (c : Char) : Char :=
  if 'A' ≤ c && c ≤ 'Z' then Char.ofNat (c.toNat + 32) else c

def lowerL (l : List Char) : List Char := l.map lowerChar

/-- Python `sub in s` (substring containment; `"" in s` is `True`). -/
def isSubstr (p : List Char) : List Char → Bool
  | [] => p.isEmpty
  | c :: rest => p.isPrefixOf (c :: rest) || isSubstr p rest

/-- Python `s.startswith(p)`. -/
def startsWithL (l p : List Char) : Bool := p.isPrefixOf l

/-- Python `s.endswith(p)`. -/
def endsWithL (l p : List Char) : Bool := p.isSuffixOf l

/-- `s.lstrip()` with an arbitrary character predicate. -/
def lstripP (f : Char → Bool) (l : List Char) : List Char := l.dropWhile f

/-- `s.strip()` with an arbitrary character predicate. -/
def stripP (f : Char → Bool) (l : List Char) : List Char :=
  ((l.dropWhile f).reverse.dropWhile f).reverse

/-- Python `s.strip()` (whitespace). -/
def stripL (l : List Char) : List Char := stripP isSpace l

/-- Python `s.strip(chars)`. -/
def stripCharsL (cs : List Char) (l : List Char) : List Char :=
  stripP (fun c => cs.contains c) l

/-- Python `s.split(sep)` for a single-character separator (all occurrences,
no maxsplit): always returns at least one group. -/
def splitChar (sep : Char) : List Char → List (List Char)
  | [] => [[]]
  | c :: rest =>
    if c = sep then [] :: splitChar sep rest
    else
      match splitChar sep rest with
      | [] => [[c]]
      | g :: gs => (c :: g) :: gs

/-- Python `sep.join(parts)` for a single-character separator. -/
def joinChar (sep : Char) : List (List Char) → List Char
  | [] => []
  | [g] => g
  | g :: gs => g ++ sep :: joinChar sep gs

/-- Python `s.split(sep, 1)`: split at the first occurrence only.
Returns the part before and the part after the separator. -/
def splitOnce (sep : Char) (l : List Char) : List Char × List Char :=
  (l.takeWhile (fun c => c ≠ sep), (l.dropWhile (fun c => c ≠ sep)).drop 1)

/-- Python `s.split()` (no argument): split on whitespace runs, no empties. -/
def splitWs : List Char → List (List Char)
  | [] => []
  | c :: rest =>
    if isSpace c then splitWs rest
    else
      match splitWs rest with
      | [] => [[c]]
      | g :: gs =>
        match rest with
        | [] => [[c]]
        | c' :: _ => if isSpace c' then [c] :: g :: gs else (c :: g) :: gs

/-- Index of the first occurrence of a character (Python `find` without `-1`). -/
def findChar (c : Char) (l : List Char) : Option Nat := l.findIdx? (· = c)

/-- Index of the last occurrence of a character (Python `rfind` without `-1`). -/
def rfindChar (c : Char) (l : List Char) : Option Nat :=
  match findChar c l.reverse with
  | none => none
  | some k => some (l.length - 1 - k)

/-- Python `s.replace(pat, rep)` for a non-empty pattern: replace every
non-overlapping occurrence, scanning left to right.  Fuel-indexed so that the
recursion is structural (the fuel is always instantiated with the length of
the string, which suffices since each step consumes at least one character). -/
def replaceFuel (pat rep : List Char) : Nat → List Char → List Char
  | 0, l => l
  | _ + 1, [] => []
  | fuel + 1, c :: rest =>
    if pat ≠ [] && pat.isPrefixOf (c :: rest) then
      rep ++ replaceFuel pat rep fuel ((c :: rest).drop pat.length)
    else
      c :: replaceFuel pat rep fuel rest

/-- Python `s.replace(pat, rep)` (non-empty `pat`). -/
def replaceL (l pat rep : List Char) : List Char := replaceFuel pat rep l.length l

end PyStr

/-! ## `urllib.parse`, transcribed from CPython -/

namespace PyUrl

open PyStr

/-- The characters allowed in a URL scheme (`urllib.parse.scheme_chars`). -/
def schemeChars : List Char :=
  "abcdefghijklmnopqrstuvwxyzABCDEFGHIJKLMNOPQRSTUVWXYZ0123456789+-.".data

/-- `urllib.parse.uses_relative`. -/
def uses_relative : List (List Char) :=
  ["", "ftp", "http", "gopher", "nntp", "imap", "wais", "file", "https",
   "shttp", "mms", "prospero", "rtsp", "rtsps", "rtspu", "sftp", "svn",
   "svn+ssh", "ws", "wss"].map String.data

/-- `urllib.parse.uses_netloc`. -/
def uses_netloc : List (List Char) :=
  ["", "ftp", "http", "gopher", "nntp", "telnet", "imap", "wais", "file",
   "mms", "https", "shttp", "snews", "prospero", "rtsp", "rtsps", "rtspu",
   "rsync", "svn", "svn+ssh", "sftp", "nfs", "git", "git+ssh", "ws",
   "wss"].map String.data

/-- `urllib.parse.uses_params`. -/
def uses_params : List (List Char) :=
  ["", "ftp", "hdl", "prospero", "http", "imap", "https", "shttp", "rtsp",
   "rtsps", "rtspu", "sip", "sips", "mms", "sftp", "tel"].map String.data

/-- `_WHATWG_C0_CONTROL_OR_SPACE` membership: C0 controls and the space. -/
def isC0OrSpace (c : Char) : Bool := c.toNat ≤ 0x20

/-- Removal of `_UNSAFE_URL_BYTES_TO_REMOVE` (`\t`, `\r`, `\n`). -/
def removeUnsafe (l : List Char) : List Char :=
  l.filter (fun c => c ≠ '\t' && c ≠ '\r' && c ≠ '\n')

structure SplitResultL where
  scheme : List Char
  netloc : List Char
  path : List Char
  query : List Char
  fragment : List Char
deriving DecidableEq, Repr

structure ParseResultL where
  scheme : List Char
  netloc : List Char
  path : List Char
  params : List Char
  query : List Char
  fragment : List Char
deriving DecidableEq, Repr

/-- `urllib.parse._splitnetloc`: the netloc runs up to the first `/`, `?`
or `#`. -/
def splitnetloc (l : List Char) : List Char × List Char :=
  (l.takeWhile (fun c => c ≠ '/' && c ≠ '?' && c ≠ '#'),
   l.dropWhile (fun c => c ≠ '/' && c ≠ '?' && c ≠ '#'))

/-- The scheme-detection step of `urlsplit`: split at the first `:` when the
prefix is an ASCII letter followed by scheme characters, else keep the
default scheme. -/
def splitScheme (dflt url1 : List Char) : List Char × List Char :=
  match findChar ':' url1 with
  | none => (dflt, url1)
  | some i =>
    if 0 < i && (url1.headD ' ').toNat < 128 && (url1.headD ' ').isAlpha &&
        (url1.take i).all (fun c => schemeChars.contains c) then
      (lowerL (url1.take i), url1.drop (i + 1))
    else (dflt, url1)

/-- The netloc step of `urlsplit`: after `//`, up to the first `/?#`. -/
def splitNetlocStage (url2 : List Char) : List Char × List Char :=
  if startsWithL url2 "//".data then splitnetloc (url2.drop 2)
  else ([], url2)

/-- `if '#' in url: url, fragment = url.split('#', 1)`. -/
def splitFragmentStage (url3 : List Char) : List Char × List Char :=
  if url3.contains '#' then splitOnce '#' url3 else (url3, [])

/-- `if '?' in url: url, query = url.split('?', 1)`. -/
def splitQueryStage (url4 : List Char) : List Char × List Char :=
  if url4.contains '?' then splitOnce '?' url4 else (url4, [])

/-- `urllib.parse.urlsplit(url, scheme, allow_fragments=True)`.
The IPv6-bracket `ValueError` and `_checknetloc` paths are not modelled. -/
def urlsplitL (url0 : List Char) (scheme0 : List Char) : SplitResultL :=
  let url1 := removeUnsafe (lstripP isC0OrSpace url0)
  let dflt := removeUnsafe (stripP isC0OrSpace scheme0)
  let sp := splitScheme dflt url1
  let np := splitNetlocStage sp.2
  let fp := splitFragmentStage np.2
  let qp := splitQueryStage fp.1
  ⟨sp.1, np.1, qp.1, qp.2, fp.2⟩

/-- `urllib.parse._splitparams`. -/
def splitparams (url : List Char) : List Char × List Char :=
  if url.contains '/' then
    match rfindChar '/' url with
    | none => (url, [])
    | some s =>
      match findChar ';' (url.drop s) with
      | none => (url, [])
      | some k => (url.take (s + k), url.drop (s + k + 1))
  else if url.contains ';' then splitOnce ';' url
  else (url, [])

/-- `urllib.parse.urlparse(url, scheme='')`. -/
def urlparseL (url : List Char) (scheme0 : List Char) : ParseResultL :=
  let s := urlsplitL url scheme0
  let pp : List Char × List Char :=
    if uses_params.contains s.scheme && s.path.contains ';' then
      splitparams s.path
    else (s.path, [])
  ⟨s.scheme, s.netloc, pp.1, pp.2, s.query, s.fragment⟩

/-- The netloc clause of `urlunsplit`. -/
def unsplitAddNetloc (scheme netloc url : List Char) : List Char :=
  if netloc ≠ [] ||
      (scheme ≠ [] && uses_netloc.contains scheme && ¬ startsWithL url "//".data) then
    let u := if url ≠ [] && ¬ startsWithL url "/".data then '/' :: url else url
    '/' :: '/' :: (netloc ++ u)
  else url

/-- `if scheme: url = scheme + ':' + url`. -/
def unsplitAddScheme (scheme url1 : List Char) : List Char :=
  if scheme ≠ [] then scheme ++ ':' :: url1 else url1

/-- `if query: url = url + '?' + query`. -/
def unsplitAddQuery (query url2 : List Char) : List Char :=
  if query ≠ [] then url2 ++ '?' :: query else url2

/-- `if fragment: url = url + '#' + fragment`. -/
def unsplitAddFragment (fragment url3 : List Char) : List Char :=
  if fragment ≠ [] then url3 ++ '#' :: fragment else url3

/-- `urllib.parse.urlunsplit`. -/
def urlunsplitL (scheme netloc url query fragment : List Char) : List Char :=
  unsplitAddFragment fragment
    (unsplitAddQuery query (unsplitAddScheme scheme (unsplitAddNetloc scheme netloc url)))

/-- `urllib.parse.urlunparse`. -/
def urlunparseL (scheme netloc url params query fragment : List Char) : List Char :=
  let u := if params ≠ [] then url ++ ';' :: params else url
  urlunsplitL scheme netloc u query fragment

/-- `urllib.parse.urldefrag`: the defragmented URL and the fragment. -/
def urldefragL (url : List Char) : List Char × List Char :=
  if url.contains '#' then
    let r := urlparseL url []
    (urlunparseL r.scheme r.netloc r.path r.params r.query [], r.fragment)
  else (url, [])

/-- `segments[1:-1] = filter(None, segments[1:-1])` in `urljoin`. -/
def filterMiddle (l : List (List Char)) : List (List Char) :=
  match l with
  | [] => []
  | [a] => [a]
  | a :: rest =>
    match rest.reverse with
    | [] => [a]
    | last :: midrev => a :: (midrev.reverse.filter (· ≠ [])) ++ [last]

/-- The segment-resolution loop of `urljoin` (`..` pops, `.` is dropped,
anything else is appended; a `..` on an empty stack is ignored). -/
def resolveSegs (segs : List (List Char)) : List (List Char) :=
  segs.foldl
    (fun acc seg =>
      if seg = "..".data then acc.dropLast
      else if seg = ".".data then acc
      else acc ++ [seg])
    []

/-- `urllib.parse.urljoin(base, url)`. -/
def urljoinL (base url : List Char) : List Char :=
  if base = [] then url
  else if url = [] then base
  else
    let b := urlparseL base []
    let u := urlparseL url b.scheme
    if u.scheme ≠ b.scheme || ¬ uses_relative.contains u.scheme then url
    else
      let netloc0 := u.netloc
      if uses_netloc.contains u.scheme && netloc0 ≠ [] then
        urlunparseL u.scheme netloc0 u.path u.params u.query u.fragment
      else
        let netloc := if uses_netloc.contains u.scheme then b.netloc else netloc0
        if u.path = [] && u.params = [] then
          let query := if u.query = [] then b.query else u.query
          urlunparseL u.scheme netloc b.path b.params query u.fragment
        else
          let baseParts0 := splitChar '/' b.path
          let baseParts :=
            if baseParts0.getLastD [] ≠ [] then baseParts0.dropLast else baseParts0
          let segments :=
            if startsWithL u.path "/".data then splitChar '/' u.path
            else filterMiddle (baseParts ++ splitChar '/' u.path)
          let resolved := resolveSegs segments
          let resolved' :=
            if segments.getLastD [] = ".".data || segments.getLastD [] = "..".data then
              resolved ++ [[]]
            else resolved
          let joined := joinChar '/' resolved'
          let path := if joined = [] then "/".data else joined
          urlunparseL u.scheme netloc path u.params u.query u.fragment

end PyUrl

/-! ## `posixpath` (`os.path` on POSIX), transcribed from CPython -/

namespace PyPath

open PyStr

/-- `posixpath.join(a, b)` (two arguments, as the source uses it). -/
def joinL (a b : List Char) : List Char :=
  if startsWithL b "/".data then b
  else if a = [] || endsWithL a "/".data then a ++ b
  else a ++ '/' :: b

/-- `genericpath._splitext(p, '/', None, '.')`, i.e. `posixpath.splitext`:
split off the extension after the last dot of the basename, unless every
character of the basename before that dot is itself a dot. -/
def splitextL (p : List Char) : List Char × List Char :=
  let rev := p.reverse
  let pre := rev.takeWhile (fun c => c ≠ '/')
  match pre.findIdx? (· = '.') with
  | none => (p, [])
  | some k =>
    if (pre.drop (k + 1)).any (fun c => c ≠ '.') then
      ((rev.drop (k + 1)).reverse, (rev.take (k + 1)).reverse)
    else (p, [])

/-- The component-filtering loop of `posixpath.normpath`: `''` and `.` are
dropped, `..` pops the previous component unless there is nothing to pop (or
we are at the unrooted start, where `..` is kept). -/
def normComps (initialSlashes : Nat) (comps : List (List Char)) : List (List Char) :=
  comps.foldl
    (fun acc comp =>
      if comp = [] || comp = ".".data then acc
      else if comp ≠ "..".data || (initialSlashes = 0 && acc = []) ||
          (acc ≠ [] && acc.getLastD [] = "..".data) then acc ++ [comp]
      else acc.dropLast)
    []

/-- `posixpath.normpath`. -/
def normpathL (p : List Char) : List Char :=
  if p = [] then ".".data
  else
    let initialSlashes : Nat :=
      if startsWithL p "/".data then
        if startsWithL p "//".data && ¬ startsWithL p "///".data then 2 else 1
      else 0
    let comps := splitChar '/' p
    let joined := joinChar '/' (normComps initialSlashes comps)
    let path := List.replicate initialSlashes '/' ++ joined
    if path = [] then ".".data else path

/-- `posixpath.dirname`. -/
def dirnameL (p : List Char) : List Char :=
  let i : Nat :=
    match rfindChar '/' p with
    | none => 0
    | some k => k + 1
  let head := p.take i
  if head ≠ [] && head.any (fun c => c ≠ '/') then
    head.reverse.dropWhile (fun c => c = '/') |>.reverse
  else head

/-- The common-prefix length of two component lists (`posixpath.relpath`'s
use of `commonprefix`). -/
def commonLen : List (List Char) → List (List Char) → Nat
  | a :: as, b :: bs => if a = b then commonLen as bs + 1 else 0
  | _, _ => 0

/-- `posixpath.relpath(path, start)` for two paths that are either both
absolute or both relative to the same working directory (the only way the
source calls it); the `abspath` of both arguments is modelled by normalising
them against a common (cancelled) root, which is exact in that case. -/
def relpathL (path start : List Char) : List Char :=
  let pList := (splitChar '/' (normpathL path)).filter (· ≠ [])
  let sList := (splitChar '/' (normpathL start)).filter (· ≠ [])
  let i := commonLen sList pList
  let rel := List.replicate (sList.length - i) "..".data ++ pList.drop i
  if rel = [] then ".".data else joinChar '/' rel

/-- The final component of a `'/'`-separated path: the text after the last
`'/'` (the whole path when it contains none).  Used to state where
`normpath` puts a path's basename. -/
def afterLast (l : List Char) : List Char :=
  (l.reverse.takeWhile (fun c => c ≠ '/')).reverse

end PyPath

/-! ## `hashlib.sha1(...).hexdigest()` -/

namespace Sha1

/-- UTF-8 encoding of one character (Python `str.encode()`), as byte values. -/
def utf8Bytes (c : Char) : List Nat :=
  let n := c.toNat
  if n < 0x80 then [n]
  else if n < 0x800 then
    [0xC0 + n / 64, 0x80 + n % 64]
  else if n < 0x10000 then
    [0xE0 + n / 4096, 0x80 + n / 64 % 64, 0x80 + n % 64]
  else
    [0xF0 + n / 262144, 0x80 + n / 4096 % 64, 0x80 + n / 64 % 64, 0x80 + n % 64]

def encodeL (l : List Char) : List Nat := l.flatMap utf8Bytes

/-- Big-endian bytes of `n`, `k` bytes wide. -/
def beBytes : Nat → Nat → List Nat
  | 0, _ => []
  | k + 1, n => beBytes k (n / 256) ++ [n % 256]

/-- SHA-1 message padding: `0x80`, zeros to 56 mod 64, 8-byte bit length. -/
def pad (msg : List Nat) : List Nat :=
  let len := msg.length
  let padLen := (64 - (len + 9) % 64) % 64
  msg ++ [0x80] ++ List.replicate padLen 0 ++ beBytes 8 (len * 8)

/-- 32-bit word from four big-endian bytes. -/
def word4 (a b c d : Nat) : Nat := ((a * 256 + b) * 256 + c) * 256 + d

/-- Split padded bytes into 16-word blocks. -/
def toBlocks : List Nat → List (List Nat)
  | b0 :: b1 :: b2 :: b3 :: b4 :: b5 :: b6 :: b7 :: b8 :: b9 :: b10 :: b11 ::
    b12 :: b13 :: b14 :: b15 :: b16 :: b17 :: b18 :: b19 :: b20 :: b21 :: b22 ::
    b23 :: b24 :: b25 :: b26 :: b27 :: b28 :: b29 :: b30 :: b31 :: b32 :: b33 ::
    b34 :: b35 :: b36 :: b37 :: b38 :: b39 :: b40 :: b41 :: b42 :: b43 :: b44 ::
    b45 :: b46 :: b47 :: b48 :: b49 :: b50 :: b51 :: b52 :: b53 :: b54 :: b55 ::
    b56 :: b57 :: b58 :: b59 :: b60 :: b61 :: b62 :: b63 :: rest =>
    [word4 b0 b1 b2 b3, word4 b4 b5 b6 b7, word4 b8 b9 b10 b11,
     word4 b12 b13 b14 b15, word4 b16 b17 b18 b19, word4 b20 b21 b22 b23,
     word4 b24 b25 b26 b27, word4 b28 b29 b30 b31, word4 b32 b33 b34 b35,
     word4 b36 b37 b38 b39, word4 b40 b41 b42 b43, word4 b44 b45 b46 b47,
     word4 b48 b49 b50 b51, word4 b52 b53 b54 b55, word4 b56 b57 b58 b59,
     word4 b60 b61 b62 b63] :: toBlocks rest
  | _ => []

def M32 : Nat := 4294967296

/-- Rotate a 32-bit word left by `k`. -/
def rotl (k n : Nat) : Nat := (n <<< k ||| n >>> (32 - k)) % M32

/-- Message-schedule extension: append words until 80 are present. -/
def extendW : Nat → List Nat → List Nat
  | 0, w => w
  | k + 1, w =>
    let i := w.length
    let nw := rotl 1 ((w.getD (i - 3) 0) ^^^ (w.getD (i - 8) 0) ^^^
      (w.getD (i - 14) 0) ^^^ (w.getD (i - 16) 0))
    extendW k (w ++ [nw])

def roundF (i b c d : Nat) : Nat :=
  if i < 20 then (b &&& c) ||| ((M32 - 1 - b) &&& d)
  else if i < 40 then b ^^^ c ^^^ d
  else if i < 60 then (b &&& c) ||| (b &&& d) ||| (c &&& d)
  else b ^^^ c ^^^ d

def roundK (i : Nat) : Nat :=
  if i < 20 then 0x5A827999
  else if i < 40 then 0x6ED9EBA1
  else if i < 60 then 0x8F1BBCDC
  else 0xCA62C1D6

/-- The 80 rounds of one SHA-1 block. -/
def rounds : List Nat → Nat → (Nat × Nat × Nat × Nat × Nat) →
    (Nat × Nat × Nat × Nat × Nat)
  | [], _, st => st
  | w :: ws, i, (a, b, c, d, e) =>
    let t := (rotl 5 a + roundF i b c d + e + roundK i + w) % M32
    rounds ws (i + 1) (t, a, rotl 30 b, c, d)

def compress (h : Nat × Nat × Nat × Nat × Nat) (block : List Nat) :
    Nat × Nat × Nat × Nat × Nat :=
  let w := extendW 64 block
  let (a, b, c, d, e) := rounds w 0 h
  ((h.1 + a) % M32, (h.2.1 + b) % M32, (h.2.2.1 + c) % M32,
   (h.2.2.2.1 + d) % M32, (h.2.2.2.2 + e) % M32)

def hexChar (n : Nat) : Char :=
  if n < 10 then Char.ofNat (48 + n) else Char.ofNat (87 + n)

/-- Lower-case hex of `n`, exactly `k` digits. -/
def natHex : Nat → Nat → List Char
  | 0, _ => []
  | k + 1, n => natHex k (n / 16) ++ [hexChar (n % 16)]

/-- `hashlib.sha1(bytes).hexdigest()` over a byte list: 40 hex characters. -/
def sha1Hex (msg : List Nat) : List Char :=
  let h := (toBlocks (pad msg)).foldl compress
    (0x67452301, 0xEFCDAB89, 0x98BADCFE, 0x10325476, 0xC3D2E1F0)
  natHex 8 h.1 ++ natHex 8 h.2.1 ++ natHex 8 h.2.2.1 ++
  natHex 8 h.2.2.2.1 ++ natHex 8 h.2.2.2.2

/-- `hashlib.sha1(s.encode()).hexdigest()[:8]`, the query digest of
`url_to_path`. -/
def digest8 (l : List Char) : List Char := (sha1Hex (encodeL l)).take 8

end Sha1

/-! ## `scrape.py` — URL classification and path mapping -/

namespace Scrape

/-- `urlparse(url)` as `scrape.py` calls it (no default scheme). -/
def parse (url : String) : PyUrl.ParseResultL := PyUrl.urlparseL url.data []

/-- `RESOURCE_TAGS` from `scrape.py`. -/
def RESOURCE_TAGS : List (String × String) :=
  [("img", "src"), ("img", "srcset"), ("script", "src"), ("link", "href"),
   ("source", "src"), ("source", "srcset"), ("video", "src"), ("audio", "src"),
   ("iframe", "src")]

/-- `BINARY_EXTS` from `scrape.py`. -/
def BINARY_EXTS : List String :=
  [".png", ".jpg", ".jpeg", ".gif", ".webp", ".svg", ".ico", ".bmp", ".tiff",
   ".tif", ".woff", ".woff2", ".ttf", ".eot", ".otf", ".mp4", ".webm", ".ogg",
   ".mp3", ".wav", ".avi", ".mov", ".pdf", ".zip", ".rar", ".7z", ".tar", ".gz"]

/-- `scrape.is_same_origin`: an exact netloc comparison.  (The `except`
branch of the source catches parser exceptions, which the total model does
not produce; see the module docstring.) -/
def is_same_origin (base_netloc url : String) : Bool :=
  (parse url).netloc == base_netloc.data

/-- `scrape.normalize_url`: reject `javascript:`/`mailto:`/`tel:`/`data:`
links, resolve against the base URL and strip the fragment. -/
def normalize_url (base_url link : String) : Option String :=
  if link.data = [] then none
  else
    let l := PyStr.stripL link.data
    if PyStr.startsWithL l "javascript:".data || PyStr.startsWithL l "mailto:".data ||
        PyStr.startsWithL l "tel:".data || PyStr.startsWithL l "data:".data then none
    else some ⟨(PyUrl.urldefragL (PyUrl.urljoinL base_url.data l)).1⟩

/-- `scrape.looks_like_resource`. -/
def looks_like_resource (url : String) : Bool :=
  let path := PyStr.lowerL (parse url).path
  BINARY_EXTS.any (fun e => PyStr.endsWithL path e.data) ||
  PyStr.endsWithL path ".css".data || PyStr.endsWithL path ".js".data

/-- The path-manipulation prefix of `url_to_path`: `parsed.path or '/'`,
append `index.html` after a trailing slash, append `/index.html` when the
path has no extension. -/
def indexedPath (path0 : List Char) : List Char :=
  let path1 := if path0 = [] then "/".data else path0
  let path2 := if PyStr.endsWithL path1 "/".data then path1 ++ "index.html".data else path1
  if (PyPath.splitextL path2).2 = [] then path2 ++ "/index.html".data else path2

/-- `if path.startswith("/"): path = path[1:]` in `url_to_path`. -/
def strippedPath (p : List Char) : List Char :=
  if PyStr.startsWithL p "/".data then p.drop 1 else p

/-- The query-hash step of `url_to_path`: insert `__q` plus the first eight
hex characters of `sha1(query)` before the final extension. -/
def queryPath (p q : List Char) : List Char :=
  if q = [] then p
  else (PyPath.splitextL p).1 ++ "__q".data ++ Sha1.digest8 q ++ (PyPath.splitextL p).2

/-- `url_to_path` after a successful `assert parsed.netloc`, over the parsed
components. -/
def url_to_path_core (base_dir netloc path query : List Char) : List Char :=
  let netloc_dir := PyPath.joinL base_dir netloc
  PyPath.normpathL (PyPath.joinL netloc_dir (queryPath (strippedPath (indexedPath path)) query))

set_option linter.unusedVariables false in
/-- `scrape.url_to_path`.  The source's `assert parsed.netloc` (an
`AssertionError` on URLs without a host) is modelled as `none`; the
`base_netloc` argument is accepted and ignored exactly as in the source. -/
def url_to_path (base_dir base_netloc url : String) : Option String :=
  let parsed := parse url
  if parsed.netloc = [] then none
  else some ⟨url_to_path_core base_dir.data parsed.netloc parsed.path parsed.query⟩

end Scrape

/-! ## `scrape.py` — the `CSS_URL_RE` scanner and the link rewriters -/

namespace Scrape

/-- `[^)'"]`, the character class of the `url` group of `CSS_URL_RE`. -/
def cssClassChar (c : Char) : Bool := c ≠ ')' && c ≠ '\'' && c ≠ '"'

/-- Matching of `CSS_URL_RE` after the literal `url(`: maximal `\s*`, an
optional quote, one or more `[^)'"]` characters, the matching quote, `\s*`
and the closing parenthesis — with the regex engine's backtracking resolved
in closed form (since whitespace is itself a `[^)'"]` character, an unquoted
body is exactly a maximal `[^)'"]` run, the group being that run without the
leading whitespace, or its final space when it is all whitespace).
Returns `(consumed text, url group, rest)`; `matchClose` handles the final
`\\s*\\)` after a prefix already consumed. -/
def matchClose (pre l4 : List Char) : Option (List Char × List Char) :=
  let ws2 := l4.takeWhile PyStr.isSpace
  match l4.dropWhile PyStr.isSpace with
  | c :: rest => if c = ')' then some (pre ++ ws2 ++ [c], rest) else none
  | [] => none

/-- The quoted-body case: one or more `[^)'"]` characters, the matching
quote, then whitespace and the closing parenthesis. -/
def matchQuoted (q : Char) (l2 : List Char) : Option (List Char × List Char × List Char) :=
  let R := l2.takeWhile cssClassChar
  match l2.dropWhile cssClassChar with
  | q2 :: l4 =>
    if R ≠ [] && q2 = q then
      (matchClose (q :: R ++ [q2]) l4).map (fun p => (p.1, R, p.2))
    else none
  | [] => none

def matchAfterParen (l : List Char) : Option (List Char × List Char × List Char) :=
  let T := l.takeWhile cssClassChar
  match l.dropWhile cssClassChar with
  | q :: l2 =>
    if (q = '\'' || q = '"') && T.all PyStr.isSpace then
      (matchQuoted q l2).map (fun p => (T ++ p.1, p.2.1, p.2.2))
    else if q = ')' then
      if T.any (fun c => ¬ PyStr.isSpace c) then
        some (T ++ [q], T.dropWhile PyStr.isSpace, l2)
      else if T ≠ [] then
        some (T ++ [q], T.drop (T.length - 1), l2)
      else none
    else none
  | [] => none

/-- A piece of CSS text as `CSS_URL_RE.sub` sees it: literal text, or one
match with its `url` group. -/
inductive CssSeg where
  | lit (s : List Char)
  | ref (full : List Char) (grp : List Char)
deriving DecidableEq, Repr

/-- The text a segment stands for (the match text itself for a `ref`). -/
def CssSeg.text : CssSeg → List Char
  | .lit s => s
  | .ref full _ => full

/-- The left-to-right scan of `CSS_URL_RE.sub`: at each position try the
pattern, consume the match or emit one character.  Fuel-indexed (structural);
any fuel at least the length of the text never reaches the dump branch. -/
def cssScan : Nat → List Char → List CssSeg
  | 0, l => if l = [] then [] else [.lit l]
  | _ + 1, [] => []
  | fuel + 1, c :: rest =>
    if PyStr.lowerL ((c :: rest).take 4) = "url(".data then
      match matchAfterParen ((c :: rest).drop 4) with
      | some (consumed, grp, remaining) =>
        .ref ((c :: rest).take 4 ++ consumed) grp :: cssScan fuel remaining
      | none => .lit [c] :: cssScan fuel rest
    else .lit [c] :: cssScan fuel rest

/-- Association-list lookup standing for Python dict membership/access. -/
def lookupMap (m : List (String × String)) (k : String) : Option String :=
  (m.find? (fun p => p.1 == k)).map (fun p => p.2)

/-- The `repl` closure of `rewrite_css_urls`: strip the group, resolve it
against the page URL, and if the absolute URL is truthy and mapped, produce
`url("<relative path>")`; otherwise return the whole match unchanged. -/
def cssRepl (page_url : String) (mapping : List (String × String))
    (page_localpath : String) (full grp : List Char) : List Char :=
  match normalize_url page_url ⟨PyStr.stripCharsL "'\"".data (PyStr.stripL grp)⟩ with
  | none => full
  | some abs =>
    if abs.data ≠ [] then
      match lookupMap mapping abs with
      | some loc =>
        "url(\"".data ++ PyPath.relpathL loc.data (PyPath.dirnameL page_localpath.data)
          ++ "\")".data
      | none => full
    else full

/-- `scrape.rewrite_css_urls`. -/
def rewrite_css_urls (css_text page_url : String) (mapping : List (String × String))
    (page_localpath : String) : String :=
  ⟨((cssScan css_text.data.length css_text.data).map (fun seg =>
      match seg with
      | .lit s => s
      | .ref full grp => cssRepl page_url mapping page_localpath full grp)).flatten⟩

/-- One parsed HTML element, as far as the source reads it: a tag name, its
attributes, and (for `<style>`) its string content. -/
structure TagNode where
  tag : String
  attrs : List (String × String)
  text : Option String := none
deriving DecidableEq, Repr

def TagNode.getAttr (n : TagNode) (a : String) : Option String :=
  (n.attrs.find? (fun p => p.1 == a)).map (fun p => p.2)

def TagNode.setAttr (n : TagNode) (a v : String) : TagNode :=
  { n with attrs := n.attrs.map (fun p => if p.1 == a then (p.1, v) else p) }

/-- The non-`srcset` attribute rewrite of `rewrite_html_links`: resolve the
value against the page URL; if truthy and mapped, replace it with the path
relative to the page's own directory, else leave it unchanged. -/
def rewriteAttrValue (page_url : String) (mapping : List (String × String))
    (val : String) : String :=
  match normalize_url page_url val with
  | none => val
  | some abs =>
    if abs.data ≠ [] then
      match lookupMap mapping abs with
      | some src_local =>
        ⟨PyPath.relpathL src_local.data
          (PyPath.dirnameL ((lookupMap mapping page_url).getD "").data)⟩
      | none => val
    else val

/-- `sep.join(parts)` for a multi-character separator. -/
def joinSeq (sep : List Char) : List (List Char) → List Char
  | [] => []
  | [g] => g
  | g :: gs => g ++ sep ++ joinSeq sep gs

/-- One `srcset` candidate: split on whitespace, rewrite the URL component,
keep the descriptor, rejoin with single spaces. -/
def rewriteSrcsetCand (page_url : String) (mapping : List (String × String))
    (part : List Char) : List Char :=
  match PyStr.splitWs part with
  | [] => []
  | u :: rest =>
    joinSeq " ".data ((rewriteAttrValue page_url mapping ⟨u⟩).data :: rest)

/-- The `srcset` branch of `rewrite_html_links`: split on commas, strip,
drop empties, rewrite each candidate, rejoin with `", "`. -/
def rewriteSrcsetValue (page_url : String) (mapping : List (String × String))
    (val : String) : String :=
  let parts := ((PyStr.splitChar ',' val.data).map PyStr.stripL).filter (· ≠ [])
  ⟨joinSeq ", ".data (parts.map (rewriteSrcsetCand page_url mapping))⟩

/-- One `(tag, attr)` pass of `rewrite_html_links` over one node. -/
def rewriteNodePass (page_url : String) (mapping : List (String × String))
    (ta : String × String) (n : TagNode) : TagNode :=
  if n.tag == ta.1 then
    match n.getAttr ta.2 with
    | none => n
    | some val =>
      if ta.2 == "srcset" then n.setAttr ta.2 (rewriteSrcsetValue page_url mapping val)
      else n.setAttr ta.2 (rewriteAttrValue page_url mapping val)
  else n

/-- `scrape.rewrite_html_links` over the parsed-node model (the re-serialized
HTML string of `str(soup)` is represented by the rewritten node list): the
`RESOURCE_TAGS` passes, then inline `style` attributes, then `<style>`
blocks. -/
def rewrite_html_links (soup : List TagNode) (page_url : String)
    (mapping : List (String × String)) : List TagNode :=
  let s1 := RESOURCE_TAGS.foldl
    (fun sp ta => sp.map (rewriteNodePass page_url mapping ta)) soup
  let s2 := s1.map (fun n =>
    match n.getAttr "style" with
    | some sv =>
      n.setAttr "style"
        (rewrite_css_urls sv page_url mapping ((lookupMap mapping page_url).getD ""))
    | none => n)
  s2.map (fun n =>
    if n.tag == "style" then
      match n.text with
      | some t =>
        if t ≠ "" then
          let t2 := rewrite_css_urls t page_url mapping
            ((lookupMap mapping page_url).getD "")
          { n with text := some t2 }
        else n
      | none => n
    else n)

end Scrape

/-! ## `imagesonly.py` — its own URL normalisation and origin policy -/

namespace ImagesOnly

/-- The `cdn_domains` allow-list of `imagesonly.is_same_origin`. -/
def cdn_domains : List String :=
  ["static.wixstatic.com", "siteassets.parastorage.com", "static.parastorage.com",
   "wixstatic.com", "parastorage.com", "on.demandware.static", "demandware.static",
   "cdn.", "assets.", "media.", "images.", "static."]

/-- `imagesonly.normalize_url`: `data:` URLs pass through unchanged; `//`
URLs get the base scheme; non-`http(s)` URLs are joined against the base;
three percent-sequences are decoded; the fragment is stripped. -/
def normalize_url (base_url url : String) : Option String :=
  if url.data = [] then none
  else if PyStr.startsWithL url.data "data:".data then some url
  else
    let u1 :=
      if PyStr.startsWithL url.data "//".data then
        (PyUrl.urlparseL base_url.data []).scheme ++ ':' :: url.data
      else url.data
    let u2 :=
      if ¬ (PyStr.startsWithL u1 "http://".data || PyStr.startsWithL u1 "https://".data) then
        PyUrl.urljoinL base_url.data u1
      else u1
    let u3 := PyStr.replaceL (PyStr.replaceL (PyStr.replaceL u2 "%20".data " ".data)
      "%2B".data "+".data) "%2F".data "/".data
    some ⟨(PyUrl.urldefragL u3).1⟩

/-- `imagesonly.is_same_origin`: exact netloc match, `www.`-stripped match,
CDN substring allow-list, then subdomain suffix on the `www.`-stripped
hosts.  (`.replace('www.', '')` removes every occurrence, not only a leading
one.) -/
def is_same_origin (base_netloc url : String) : Bool :=
  let url_netloc := (PyUrl.urlparseL url.data []).netloc
  if url_netloc == base_netloc.data then true
  else
    let base_domain := PyStr.replaceL base_netloc.data "www.".data []
    let url_domain := PyStr.replaceL url_netloc "www.".data []
    if base_domain == url_domain then true
    else if cdn_domains.any (fun d => PyStr.isSubstr d.data url_netloc) then true
    else if PyStr.endsWithL url_domain ('.' :: base_domain) then true
    else false

end ImagesOnly

/-! ## `scrape.py` — the `mirror` crawl loop

The frontier loop of `mirror` (lines 393–569) over an abstract "world": the
network is a function giving, per page URL, the parsed node list of the
fetched body (or `none` for a fetch error), and per resource URL a success
flag and the saved file's text (read back for `.css` handling).  Saving files
to disk, the politeness sleeps and the thread pool are not crawl-state; the
concurrent batch is modelled as dispatching in submission order.  A fetch
attempt is recorded as a trace event. -/

namespace Scrape

inductive CrawlEvent where
  | pageFetch (url : String)
  | batchDispatch (urls : List String)
  | resourceFetch (url : String)
deriving DecidableEq, Repr

structure CrawlConfig where
  max_pages : Nat
  same_domain_only : Bool
  obey_robots : Bool
  max_workers : Nat
  outdir : String

structure CrawlWorld where
  pageSoup : String → Option (List TagNode)
  robots : String → Bool
  resourceOk : String → Bool
  resourceText : String → String

structure CrawlState where
  to_visit_pages : List String
  visited_pages : List String
  to_visit_resources : List String
  downloaded : List (String × Option String)
  page_count : Nat
  resource_count : Nat
  trace : List CrawlEvent
deriving Repr

/-- Python dict assignment `d[k] = v` (insertion order preserved). -/
def dictSet (d : List (String × Option String)) (k : String) (v : Option String) :
    List (String × Option String) :=
  if d.any (fun p => p.1 == k) then d.map (fun p => if p.1 == k then (p.1, v) else p)
  else d ++ [(k, v)]

/-- Python dict membership `k in d`. -/
def dictHas (d : List (String × Option String)) (k : String) : Bool :=
  d.any (fun p => p.1 == k)

/-- `allowed_by_robots` from `mirror`. -/
def allowed_by_robots (cfg : CrawlConfig) (w : CrawlWorld) (url : String) : Bool :=
  if ¬ cfg.obey_robots then true else w.robots url

/-- `url_to_path` as the loop calls it (its `assert` cannot be tripped on a
non-crashing run; the unchecked core is used). -/
def loopLocalPath (cfg : CrawlConfig) (url : String) : String :=
  ⟨url_to_path_core cfg.outdir.data (parse url).netloc (parse url).path (parse url).query⟩

/-- One `srcset` candidate of the resource-tag discovery loop. -/
def enqueueSrcsetPart (url : String) (downloaded : List (String × Option String))
    (q : List String × List String) (part : List Char) : List String × List String :=
  match PyStr.splitWs part with
  | [] => q
  | u :: _ =>
    match normalize_url url ⟨u⟩ with
    | none => q
    | some abs =>
      if abs.data ≠ [] && ¬ dictHas downloaded abs && ¬ q.2.contains abs &&
          ¬ q.1.contains abs then
        if looks_like_resource abs then (q.1, q.2 ++ [abs]) else (q.1 ++ [abs], q.2)
      else q

/-- One non-`srcset` attribute of the resource-tag discovery loop. -/
def enqueueResourceAttr (tag : String) (url : String)
    (downloaded : List (String × Option String))
    (q : List String × List String) (raw : String) : List String × List String :=
  match normalize_url url raw with
  | none => q
  | some abs =>
    if abs.data = [] then q
    else if dictHas downloaded abs then q
    else if looks_like_resource abs then
      if q.2.contains abs then q else (q.1, q.2 ++ [abs])
    else if tag == "a" || tag == "iframe" then
      if q.1.contains abs then q else (q.1 ++ [abs], q.2)
    else
      if q.2.contains abs then q else (q.1, q.2 ++ [abs])

/-- The `RESOURCE_TAGS` discovery loops of `mirror` (page queue, resource
queue) threaded over the node list. -/
def discoverResourceTags (url : String) (soup : List TagNode)
    (downloaded : List (String × Option String))
    (q0 : List String × List String) : List String × List String :=
  RESOURCE_TAGS.foldl
    (fun qa ta =>
      (soup.filter (fun n => n.tag == ta.1)).foldl
        (fun q n =>
          match n.getAttr ta.2 with
          | none => q
          | some raw =>
            if raw.data = [] then q
            else if ta.2 == "srcset" then
              (((PyStr.splitChar ',' raw.data).map PyStr.stripL).filter (· ≠ [])).foldl
                (enqueueSrcsetPart url downloaded) q
            else enqueueResourceAttr ta.1 url downloaded q raw)
        qa)
    q0

/-- The anchor (`<a href>`) discovery loop of `mirror`.  Anchors that look
like resources are appended to the resource queue without a membership
check. -/
def discoverAnchors (cfg : CrawlConfig) (base_netloc url : String)
    (soup : List TagNode) (visited : List String)
    (q0 : List String × List String) : List String × List String :=
  (soup.filter (fun n => n.tag == "a" && (n.getAttr "href").isSome)).foldl
    (fun q n =>
      match n.getAttr "href" with
      | none => q
      | some href =>
        match normalize_url url href with
        | none => q
        | some abs =>
          if abs.data = [] then q
          else if cfg.same_domain_only && ¬ is_same_origin base_netloc abs then q
          else if visited.contains abs || q.1.contains abs then q
          else if looks_like_resource abs then (q.1, q.2 ++ [abs])
          else (q.1 ++ [abs], q.2))
    q0

/-- The page branch of the crawl loop: pop, defragment, skip if visited /
cross-origin / robots-disallowed, fetch, record the local path, discover
resources and anchors, mark visited, count the page. -/
def processPage (cfg : CrawlConfig) (w : CrawlWorld) (base_netloc : String)
    (st : CrawlState) : CrawlState :=
  match st.to_visit_pages with
  | [] => st
  | url0 :: rest =>
    let st1 := { st with to_visit_pages := rest }
    let url : String := ⟨(PyUrl.urldefragL url0.data).1⟩
    if st1.visited_pages.contains url then st1
    else if cfg.same_domain_only && ¬ is_same_origin base_netloc url then
      { st1 with visited_pages := st1.visited_pages ++ [url] }
    else if ¬ allowed_by_robots cfg w url then
      { st1 with visited_pages := st1.visited_pages ++ [url] }
    else
      let st2 := { st1 with trace := st1.trace ++ [CrawlEvent.pageFetch url] }
      match w.pageSoup url with
      | none => { st2 with visited_pages := st2.visited_pages ++ [url] }
      | some soup =>
        let downloaded := dictSet st2.downloaded url (some (loopLocalPath cfg url))
        let q1 := discoverResourceTags url soup downloaded
          (st2.to_visit_pages, st2.to_visit_resources)
        let q2 := discoverAnchors cfg base_netloc url soup st2.visited_pages q1
        { st2 with
            to_visit_pages := q2.1
            to_visit_resources := q2.2
            downloaded := downloaded
            visited_pages := st2.visited_pages ++ [url]
            page_count := st2.page_count + 1 }

/-- The batch-construction loop (`for _ in range(batch_size)`): pop and
defragment a resource URL, skip it if already in `downloaded`, record `None`
for cross-origin or robots-disallowed ones, else add it to the batch. -/
def buildBatch (cfg : CrawlConfig) (w : CrawlWorld) (base_netloc : String) :
    Nat → CrawlState → List (String × String) → CrawlState × List (String × String)
  | 0, st, batch => (st, batch)
  | k + 1, st, batch =>
    match st.to_visit_resources with
    | [] => buildBatch cfg w base_netloc k st batch
    | r0 :: rest =>
      let st1 := { st with to_visit_resources := rest }
      let res_url : String := ⟨(PyUrl.urldefragL r0.data).1⟩
      if dictHas st1.downloaded res_url then buildBatch cfg w base_netloc k st1 batch
      else if cfg.same_domain_only && ¬ is_same_origin base_netloc res_url then
        buildBatch cfg w base_netloc k
          { st1 with downloaded := dictSet st1.downloaded res_url none } batch
      else if ¬ allowed_by_robots cfg w res_url then
        buildBatch cfg w base_netloc k
          { st1 with downloaded := dictSet st1.downloaded res_url none } batch
      else
        buildBatch cfg w base_netloc k st1 (batch ++ [(res_url, loopLocalPath cfg res_url)])

/-- Handling of one completed download (`download_resource_worker` result):
on success record the local path and, for `.css` files, scan the saved text
with `CSS_URL_RE` and enqueue unseen references; on failure record `None`.
(The `.js` branch only re-writes the saved file and changes no crawl
state.) -/
def processResult (w : CrawlWorld) (st : CrawlState) (item : String × String) :
    CrawlState :=
  let st1 := { st with trace := st.trace ++ [CrawlEvent.resourceFetch item.1] }
  if w.resourceOk item.1 then
    let st2 := { st1 with
        downloaded := dictSet st1.downloaded item.1 (some item.2)
        resource_count := st1.resource_count + 1 }
    if PyStr.endsWithL (PyStr.lowerL item.1.data) ".css".data then
      let css := w.resourceText item.1
      let grps := (cssScan css.data.length css.data).filterMap
        (fun seg => match seg with | .ref _ grp => some grp | .lit _ => none)
      let rq2 := grps.foldl
          (fun rq grp =>
            let ref : String := ⟨PyStr.stripCharsL "'\"".data (PyStr.stripL grp)⟩
            match normalize_url item.1 ref with
            | none => rq
            | some abs =>
              if abs.data ≠ [] && ¬ dictHas st2.downloaded abs && ¬ rq.contains abs then
                rq ++ [abs]
              else rq)
          st2.to_visit_resources
      { st2 with to_visit_resources := rq2 }
    else st2
  else { st1 with downloaded := dictSet st1.downloaded item.1 none }

/-- The resource branch of the crawl loop: build a batch of at most
`max_workers * 2` pending resources and dispatch it. -/
def processResourceBatch (cfg : CrawlConfig) (w : CrawlWorld) (base_netloc : String)
    (st : CrawlState) : CrawlState :=
  if st.to_visit_resources = [] then st
  else
    let batch_size := min (cfg.max_workers * 2) st.to_visit_resources.length
    let sb := buildBatch cfg w base_netloc batch_size st []
    if sb.2 = [] then sb.1
    else
      let st2 := { sb.1 with
        trace := sb.1.trace ++ [CrawlEvent.batchDispatch (sb.2.map (fun p => p.1))] }
      sb.2.foldl (processResult w) st2

/-- One iteration of the `while` body: pages are taken first. -/
def crawlStep (cfg : CrawlConfig) (w : CrawlWorld) (base_netloc : String)
    (st : CrawlState) : CrawlState :=
  if st.to_visit_pages = [] then processResourceBatch cfg w base_netloc st
  else processPage cfg w base_netloc st

/-- `while (to_visit_pages or to_visit_resources) and page_count < max_pages`. -/
def crawlCond (cfg : CrawlConfig) (st : CrawlState) : Bool :=
  (decide (st.to_visit_pages ≠ []) || decide (st.to_visit_resources ≠ [])) &&
    decide (st.page_count < cfg.max_pages)

/-- The crawl loop, fuel-indexed (any fuel at least the number of iterations
of the run gives the loop's final state). -/
def crawlLoop (cfg : CrawlConfig) (w : CrawlWorld) (base_netloc : String) :
    Nat → CrawlState → CrawlState
  | 0, st => st
  | fuel + 1, st =>
    if crawlCond cfg st then crawlLoop cfg w base_netloc fuel (crawlStep cfg w base_netloc st)
    else st

/-- The initial frontier of `mirror`. -/
def initState (start_url : String) : CrawlState :=
  ⟨[start_url], [], [], [], 0, 0, []⟩

/-- The crawl phase of `mirror` from a start URL (`base_netloc` is the
netloc of the start URL). -/
def mirror_crawl (cfg : CrawlConfig) (w : CrawlWorld) (start_url : String)
    (fuel : Nat) : CrawlState :=
  crawlLoop cfg w ⟨(parse start_url).netloc⟩ fuel (initState start_url)

/-- `mapping = {k: v for k, v in downloaded.items() if v}` (successes only)
from the second pass of `mirror`. -/
def buildMapping (downloaded : List (String × Option String)) :
    List (String × String) :=
  downloaded.filterMap (fun p =>
    match p.2 with
    | some v => if v ≠ "" then some (p.1, v) else none
    | none => none)

/-- Page-fetch URLs of a trace, in order. -/
def pageFetches (tr : List CrawlEvent) : List String :=
  tr.filterMap (fun e => match e with | .pageFetch u => some u | _ => none)

/-- Resource-fetch URLs of a trace, in order. -/
def resourceFetches (tr : List CrawlEvent) : List String :=
  tr.filterMap (fun e => match e with | .resourceFetch u => some u | _ => none)

/-- Dispatched batches of a trace, in order. -/
def batches (tr : List CrawlEvent) : List (List String) :=
  tr.filterMap (fun e => match e with | .batchDispatch us => some us | _ => none)

end Scrape

/-! ## Claim C1 — the same-origin policy -/

/-- The origin rules as the specification words them (restricted to what the
code actually computes): exact host equality, equality after removing
`www.`, subdomain suffix on the `www.`-stripped hosts, or a CDN-pattern
substring of the URL host.  This is the spec-side definition used to state
the refinement; `ImagesOnly.is_same_origin` is the code-side one. -/
def claimedOriginRules (base url : String) : Bool :=
  let h := (PyUrl.urlparseL url.data []).netloc
  let bd := PyStr.replaceL base.data "www.".data []
  let hd := PyStr.replaceL h "www.".data []
  (h == base.data) || (bd == hd) || PyStr.endsWithL hd ('.' :: bd) ||
  ImagesOnly.cdn_domains.any (fun d => PyStr.isSubstr d.data h)

/-- C1, counterexample: the claim asserts
`is_same_origin("example.com", "https://cdn.example.com/x")` is true, but
`scrape.py`'s `is_same_origin` (one of the two functions the claim is about)
is an exact host comparison and returns `False` there — the subdomain/CDN
rules exist only in `imagesonly.py`. -/
theorem C1_counterexample :
    Scrape.is_same_origin "example.com" "https://cdn.example.com/x" = false := by
  decide

/-- C1, amended: `scrape.py`'s `is_same_origin` returns true exactly on an
exact host match (so both the CDN and the evil-host example are false
there), while the claimed exact/`www.`/subdomain/CDN characterisation holds
for `imagesonly.py`'s `is_same_origin` — with `www.`-stripping meaning
removal of every occurrence of `www.` and the subdomain suffix test applied
to the stripped hosts; the claim's three concrete examples hold for the
`imagesonly.py` function. -/
theorem C1_amended_origin_rules :
    (∀ base url : String,
      Scrape.is_same_origin base url = ((PyUrl.urlparseL url.data []).netloc == base.data)) ∧
    (∀ base url : String,
      ImagesOnly.is_same_origin base url = claimedOriginRules base url) ∧
    ImagesOnly.is_same_origin "example.com" "https://example.com/x" = true ∧
    ImagesOnly.is_same_origin "example.com" "https://cdn.example.com/x" = true ∧
    ImagesOnly.is_same_origin "example.com" "https://evil.com/x" = false ∧
    Scrape.is_same_origin "example.com" "https://example.com/x" = true ∧
    Scrape.is_same_origin "example.com" "https://evil.com/x" = false := by
  refine ⟨fun base url => rfl, fun base url => ?_, by decide, by decide, by decide,
    by decide, by decide⟩
  simp only [ImagesOnly.is_same_origin, claimedOriginRules]
  cases hA : (PyUrl.urlparseL url.data []).netloc == base.data <;>
    cases hB : PyStr.replaceL base.data "www.".data [] ==
      PyStr.replaceL (PyUrl.urlparseL url.data []).netloc "www.".data [] <;>
    cases hC : ImagesOnly.cdn_domains.any
      (fun d => PyStr.isSubstr d.data (PyUrl.urlparseL url.data []).netloc) <;>
    cases hD : PyStr.endsWithL
      (PyStr.replaceL (PyUrl.urlparseL url.data []).netloc "www.".data [])
      ('.' :: PyStr.replaceL base.data "www.".data []) <;>
    simp [hA, hB, hC, hD]

/-! ## Claim C9 — totality of `url_to_path` -/

/-- C9: `url_to_path` returns a path for every URL whose parsed host is
non-empty, and fails (the modelled `assert parsed.netloc`) exactly when the
host is empty. -/
theorem C9_url_to_path_total (base_dir base_netloc url : String) :
    ((Scrape.parse url).netloc ≠ [] →
      ∃ p, Scrape.url_to_path base_dir base_netloc url = some p) ∧
    ((Scrape.parse url).netloc = [] →
      Scrape.url_to_path base_dir base_netloc url = none) := by
  constructor
  · intro h
    simp only [Scrape.url_to_path, if_neg h]
    exact ⟨_, rfl⟩
  · intro h
    simp only [Scrape.url_to_path, if_pos h]

/-- C9, witness: a URL with a host gets a path; a URL without a host fails. -/
theorem C9_url_to_path_total_witness :
    (∃ p, Scrape.url_to_path "out" "h" "https://h/a.png" = some p) ∧
    Scrape.url_to_path "out" "h" "no-host-here" = none :=
  ⟨(C9_url_to_path_total "out" "h" "https://h/a.png").1 (by decide),
   (C9_url_to_path_total "out" "h" "no-host-here").2 (by decide)⟩

/-! ## Claim C7 — `normalize_url` -/

namespace PyUrl

lemma mem_stripP {f : Char → Bool} {l : List Char} {c : Char}
    (h : c ∈ PyStr.stripP f l) : c ∈ l := by
  unfold PyStr.stripP at h
  rw [List.mem_reverse] at h
  have h1 := (List.dropWhile_sublist f).subset h
  rw [List.mem_reverse] at h1
  exact (List.dropWhile_sublist f).subset h1

lemma mem_removeUnsafe {l : List Char} {c : Char} (h : c ∈ removeUnsafe l) : c ∈ l :=
  List.mem_of_mem_filter h

lemma scheme_chars_lower_ne_hash : ∀ c, c ∈ schemeChars → PyStr.lowerChar c ≠ '#' := by
  decide

lemma splitScheme_fst_no_hash (dflt url1 : List Char) (h : '#' ∉ dflt) :
    '#' ∉ (splitScheme dflt url1).1 := by
  unfold splitScheme
  cases hf : PyStr.findChar ':' url1 with
  | none => exact h
  | some i =>
    dsimp only
    split
    · next hcond =>
      intro hm
      obtain ⟨c, hc, hlc⟩ := List.mem_map.1 hm
      simp only [Bool.and_eq_true] at hcond
      have hcs := List.all_eq_true.1 hcond.2 c hc
      exact scheme_chars_lower_ne_hash c (by simpa using hcs) hlc
    · exact h

lemma splitNetloc_fst_no_hash (url2 : List Char) : '#' ∉ (splitNetlocStage url2).1 := by
  unfold splitNetlocStage
  split
  · intro hm
    have := List.mem_takeWhile_imp hm
    simp at this
  · simp

lemma splitNetloc_snd_subset (url2 : List Char) : (splitNetlocStage url2).2 ⊆ url2 := by
  unfold splitNetlocStage
  split
  · exact fun c hc => List.drop_subset 2 url2 ((List.dropWhile_sublist _).subset hc)
  · exact fun c hc => hc

lemma splitFragment_fst_no_hash (url3 : List Char) : '#' ∉ (splitFragmentStage url3).1 := by
  unfold splitFragmentStage
  split
  · intro hm
    have := List.mem_takeWhile_imp hm
    simp at this
  · next hcon =>
    intro hm
    exact hcon (by simpa using hm)

lemma splitQuery_fst_subset (u : List Char) : (splitQueryStage u).1 ⊆ u := by
  unfold splitQueryStage
  split
  · exact fun c hc => (List.takeWhile_sublist _).subset hc
  · exact fun c hc => hc

lemma splitQuery_snd_subset (u : List Char) : (splitQueryStage u).2 ⊆ u := by
  unfold splitQueryStage
  split
  · exact fun c hc => (List.dropWhile_sublist _).subset (List.drop_subset 1 _ hc)
  · exact fun _ hc => absurd hc (List.not_mem_nil _)

lemma urlsplit_no_hash (u s0 : List Char) (h0 : '#' ∉ s0) :
    '#' ∉ (urlsplitL u s0).scheme ∧ '#' ∉ (urlsplitL u s0).netloc ∧
    '#' ∉ (urlsplitL u s0).path ∧ '#' ∉ (urlsplitL u s0).query := by
  have hdflt : '#' ∉ removeUnsafe (PyStr.stripP isC0OrSpace s0) :=
    fun h => h0 (mem_stripP (mem_removeUnsafe h))
  refine ⟨splitScheme_fst_no_hash _ _ hdflt, splitNetloc_fst_no_hash _, ?_, ?_⟩
  · exact fun hm => splitFragment_fst_no_hash _ (splitQuery_fst_subset _ hm)
  · exact fun hm => splitFragment_fst_no_hash _ (splitQuery_snd_subset _ hm)

lemma splitparams_fst_subset (l : List Char) : (splitparams l).1 ⊆ l := by
  unfold splitparams
  split
  · split
    · exact fun c hc => hc
    · split
      · exact fun c hc => hc
      · exact fun c hc => List.take_subset _ _ hc
  · split
    · exact fun c hc => (List.takeWhile_sublist _).subset hc
    · exact fun c hc => hc

lemma splitparams_snd_subset (l : List Char) : (splitparams l).2 ⊆ l := by
  unfold splitparams
  split
  · split
    · exact fun _ hc => absurd hc (List.not_mem_nil _)
    · split
      · exact fun _ hc => absurd hc (List.not_mem_nil _)
      · exact fun c hc => List.drop_subset _ _ hc
  · split
    · exact fun c hc => (List.dropWhile_sublist _).subset (List.drop_subset 1 _ hc)
    · exact fun _ hc => absurd hc (List.not_mem_nil _)

lemma urlparse_no_hash (u s0 : List Char) (h0 : '#' ∉ s0) :
    '#' ∉ (urlparseL u s0).scheme ∧ '#' ∉ (urlparseL u s0).netloc ∧
    '#' ∉ (urlparseL u s0).path ∧ '#' ∉ (urlparseL u s0).params ∧
    '#' ∉ (urlparseL u s0).query := by
  obtain ⟨h1, h2, h3, h4⟩ := urlsplit_no_hash u s0 h0
  refine ⟨h1, h2, ?_, ?_, h4⟩
  · show '#' ∉ (if uses_params.contains (urlsplitL u s0).scheme &&
        (urlsplitL u s0).path.contains ';' then splitparams (urlsplitL u s0).path
      else ((urlsplitL u s0).path, [])).1
    split
    · exact fun hm => h3 (splitparams_fst_subset _ hm)
    · exact h3
  · show '#' ∉ (if uses_params.contains (urlsplitL u s0).scheme &&
        (urlsplitL u s0).path.contains ';' then splitparams (urlsplitL u s0).path
      else ((urlsplitL u s0).path, [])).2
    split
    · exact fun hm => h3 (splitparams_snd_subset _ hm)
    · exact fun hc => absurd hc (List.not_mem_nil _)

lemma ite_no_hash {c : Prop} [Decidable c] {a b : List Char}
    (ha : '#' ∉ a) (hb : '#' ∉ b) : '#' ∉ (if c then a else b) := by
  split <;> assumption

lemma append_no_hash {a b : List Char} (ha : '#' ∉ a) (hb : '#' ∉ b) :
    '#' ∉ a ++ b := by
  intro hm
  rcases List.mem_append.1 hm with h | h
  · exact ha h
  · exact hb h

lemma cons_no_hash {x : Char} {b : List Char} (hx : x ≠ '#') (hb : '#' ∉ b) :
    '#' ∉ x :: b := by
  intro hm
  rcases List.mem_cons.1 hm with h | h
  · exact hx h.symm
  · exact hb h

lemma urlunsplit_no_hash (scheme netloc url query : List Char)
    (h1 : '#' ∉ scheme) (h2 : '#' ∉ netloc) (h3 : '#' ∉ url) (h4 : '#' ∉ query) :
    '#' ∉ urlunsplitL scheme netloc url query [] := by
  have hu1 : '#' ∉ unsplitAddNetloc scheme netloc url := by
    unfold unsplitAddNetloc
    exact ite_no_hash (cons_no_hash (by decide) (cons_no_hash (by decide)
      (append_no_hash h2 (ite_no_hash (cons_no_hash (by decide) h3) h3)))) h3
  have hu2 : '#' ∉ unsplitAddScheme scheme (unsplitAddNetloc scheme netloc url) := by
    unfold unsplitAddScheme
    exact ite_no_hash (append_no_hash h1 (cons_no_hash (by decide) hu1)) hu1
  have hu3 : '#' ∉ unsplitAddQuery query
      (unsplitAddScheme scheme (unsplitAddNetloc scheme netloc url)) := by
    unfold unsplitAddQuery
    exact ite_no_hash (append_no_hash hu2 (cons_no_hash (by decide) h4)) hu2
  unfold urlunsplitL unsplitAddFragment
  rw [if_neg (fun h => h rfl)]
  exact hu3

lemma urlunparse_no_hash (scheme netloc url params query : List Char)
    (h1 : '#' ∉ scheme) (h2 : '#' ∉ netloc) (h3 : '#' ∉ url) (hp : '#' ∉ params)
    (h4 : '#' ∉ query) :
    '#' ∉ urlunparseL scheme netloc url params query [] := by
  unfold urlunparseL
  split
  · refine urlunsplit_no_hash _ _ _ _ h1 h2 ?_ h4
    intro hm
    rcases List.mem_append.1 hm with hm | hm
    · exact h3 hm
    · rcases List.mem_cons.1 hm with hm | hm
      · simp at hm
      · exact hp hm
  · exact urlunsplit_no_hash _ _ _ _ h1 h2 h3 h4

/-- The first component of `urldefrag` never contains `#`. -/
lemma urldefrag_no_hash (u : List Char) : '#' ∉ (urldefragL u).1 := by
  by_cases hc : u.contains '#'
  · obtain ⟨h1, h2, h3, hp, h4⟩ := urlparse_no_hash u [] (List.not_mem_nil _)
    simp only [urldefragL, hc, if_true]
    exact urlunparse_no_hash _ _ _ _ _ h1 h2 h3 hp h4
  · simp only [urldefragL, hc, Bool.false_eq_true, if_false]
    intro hmem
    exact absurd (by simpa using hmem) (by simpa using hc)

end PyUrl

/-- The four rejected link prefixes of `scrape.normalize_url`, as one test. -/
def rejectedScheme (l : List Char) : Bool :=
  PyStr.startsWithL l "javascript:".data || PyStr.startsWithL l "mailto:".data ||
  PyStr.startsWithL l "tel:".data || PyStr.startsWithL l "data:".data

/-- C7, counterexample: the claim asserts `normalize` returns `None` for the
`javascript:`/`mailto:`/`tel:`/`data:` schemes, but `imagesonly.py`'s
`normalize_url` (one of the two functions the claim is about) passes `data:`
URLs through unchanged and resolves `javascript:` links instead of
rejecting them. -/
theorem C7_counterexample :
    ImagesOnly.normalize_url "https://h/" "data:image/png;base64,AA" =
      some "data:image/png;base64,AA" ∧
    ImagesOnly.normalize_url "https://h/" "javascript:alert(1)" =
      some "javascript:alert(1)" := by
  constructor <;> decide

/-- C7, amended: `scrape.py`'s `normalize_url` behaves as the claim states —
`None` for an empty link and for the four schemes (tested after stripping),
otherwise `urljoin` against the base followed by fragment removal, and any
returned URL contains no `#`; `imagesonly.py`'s `normalize_url` instead
passes `data:` URLs through unresolved and does not filter `javascript:`,
`mailto:` or `tel:`.  Concrete resolutions: relative, protocol-relative
(with fragment) and parent-relative links. -/
theorem C7_amended_normalize :
    (∀ base link : String, rejectedScheme (PyStr.stripL link.data) = true →
      Scrape.normalize_url base link = none) ∧
    (∀ base : String, Scrape.normalize_url base "" = none) ∧
    (∀ base link : String, link ≠ "" →
      rejectedScheme (PyStr.stripL link.data) = false →
      Scrape.normalize_url base link =
        some ⟨(PyUrl.urldefragL (PyUrl.urljoinL base.data (PyStr.stripL link.data))).1⟩) ∧
    (∀ base link r : String, Scrape.normalize_url base link = some r → '#' ∉ r.data) ∧
    (∀ base u : String, PyStr.startsWithL u.data "data:".data = true →
      ImagesOnly.normalize_url base u = some u) ∧
    Scrape.normalize_url "https://h/a/b.html" "x.png" = some "https://h/a/x.png" ∧
    Scrape.normalize_url "https://h/a/b.html" "//other.com/c#frag" =
      some "https://other.com/c" ∧
    Scrape.normalize_url "https://h/a/b.html" "../up.png" = some "https://h/up.png" := by
  refine ⟨?_, ?_, ?_, ?_, ?_, by decide, by decide, by decide⟩
  · intro base link h
    unfold Scrape.normalize_url
    split
    · rfl
    · rw [if_pos]
      simpa [rejectedScheme] using h
  · intro base
    rfl
  · intro base link hne h
    have hd : link.data ≠ [] := by
      intro hd
      exact hne (by ext1; simp [hd])
    unfold Scrape.normalize_url
    rw [if_neg hd, if_neg]
    simp [rejectedScheme] at h
    simp [h]
  · intro base link r h
    unfold Scrape.normalize_url at h
    dsimp only at h
    split at h
    · exact absurd h (by simp)
    · split at h
      · exact absurd h (by simp)
      · have := Option.some.inj h
        rw [← this]
        exact PyUrl.urldefrag_no_hash _
  · intro base u h
    have hd : u.data ≠ [] := by
      intro hd
      rw [hd] at h
      exact absurd h (by decide)
    unfold ImagesOnly.normalize_url
    rw [if_neg hd, if_pos h]

/-- C7, witness: the amended theorem applied at concrete inputs. -/
theorem C7_amended_normalize_witness :
    Scrape.normalize_url "https://h/" " mailto:x@y" = none ∧
    Scrape.normalize_url "https://h/" "p2.html" =
      some ⟨(PyUrl.urldefragL
        (PyUrl.urljoinL "https://h/".data (PyStr.stripL "p2.html".data))).1⟩ ∧
    '#' ∉ ("https://other.com/c" : String).data ∧
    ImagesOnly.normalize_url "https://h/" "data:x" = some "data:x" :=
  ⟨C7_amended_normalize.1 "https://h/" " mailto:x@y" (by decide),
   C7_amended_normalize.2.2.1 "https://h/" "p2.html" (by decide) (by decide),
   C7_amended_normalize.2.2.2.1 "https://h/a/b.html" "//other.com/c#frag"
     "https://other.com/c" C7_amended_normalize.2.2.2.2.2.2.1,
   C7_amended_normalize.2.2.2.2.1 "https://h/" "data:x" (by decide)⟩

/-! ## Crawl-loop lemmas -/

namespace Scrape

lemma pageFetches_append (a b : List CrawlEvent) :
    pageFetches (a ++ b) = pageFetches a ++ pageFetches b := by
  simp [pageFetches, List.filterMap_append]

lemma resourceFetches_append (a b : List CrawlEvent) :
    resourceFetches (a ++ b) = resourceFetches a ++ resourceFetches b := by
  simp [resourceFetches, List.filterMap_append]

lemma batches_append (a b : List CrawlEvent) :
    batches (a ++ b) = batches a ++ batches b := by
  simp [batches, List.filterMap_append]

/-- The two queues only ever grow by appending during discovery. -/
def QExtends (q0 q : List String × List String) : Prop :=
  ∃ a b, q = (q0.1 ++ a, q0.2 ++ b)

lemma qExtends_rfl (q : List String × List String) : QExtends q q :=
  ⟨[], [], by simp⟩

lemma qExtends_trans {q0 q1 q2 : List String × List String}
    (h1 : QExtends q0 q1) (h2 : QExtends q1 q2) : QExtends q0 q2 := by
  obtain ⟨a, b, rfl⟩ := h1
  obtain ⟨c, d, rfl⟩ := h2
  exact ⟨a ++ c, b ++ d, by simp⟩

lemma foldl_qExtends {α : Type} {f : (List String × List String) → α → (List String × List String)}
    (hf : ∀ q x, QExtends q (f q x)) :
    ∀ (l : List α) (q0 : List String × List String), QExtends q0 (l.foldl f q0) := by
  intro l
  induction l with
  | nil => exact fun q0 => qExtends_rfl q0
  | cons x xs ih => exact fun q0 => qExtends_trans (hf q0 x) (ih (f q0 x))

lemma qExtends_addRes (q : List String × List String) (u : String) :
    QExtends q (q.1, q.2 ++ [u]) := ⟨[], [u], by simp⟩

lemma qExtends_addPage (q : List String × List String) (u : String) :
    QExtends q (q.1 ++ [u], q.2) := ⟨[u], [], by simp⟩

lemma enqueueSrcsetPart_extends (url : String) (downloaded : List (String × Option String))
    (q : List String × List String) (part : List Char) :
    QExtends q (enqueueSrcsetPart url downloaded q part) := by
  unfold enqueueSrcsetPart
  split
  · exact qExtends_rfl q
  · split
    · exact qExtends_rfl q
    · split
      · split
        · exact qExtends_addRes _ _
        · exact qExtends_addPage _ _
      · exact qExtends_rfl q

lemma enqueueResourceAttr_extends (tag : String) (url : String)
    (downloaded : List (String × Option String))
    (q : List String × List String) (raw : String) :
    QExtends q (enqueueResourceAttr tag url downloaded q raw) := by
  unfold enqueueResourceAttr
  split
  · exact qExtends_rfl q
  · split
    · exact qExtends_rfl q
    · split
      · exact qExtends_rfl q
      · split
        · split
          · exact qExtends_rfl q
          · exact qExtends_addRes _ _
        · split
          · split
            · exact qExtends_rfl q
            · exact qExtends_addPage _ _
          · split
            · exact qExtends_rfl q
            · exact qExtends_addRes _ _

lemma discoverResourceTags_extends (url : String) (soup : List TagNode)
    (downloaded : List (String × Option String)) (q0 : List String × List String) :
    QExtends q0 (discoverResourceTags url soup downloaded q0) := by
  unfold discoverResourceTags
  refine foldl_qExtends (fun q ta => ?_) RESOURCE_TAGS q0
  refine foldl_qExtends (fun q' n => ?_) _ q
  split
  · exact qExtends_rfl q'
  · split
    · exact qExtends_rfl q'
    · split
      · exact foldl_qExtends (fun q'' part => enqueueSrcsetPart_extends url downloaded q'' part) _ q'
      · exact enqueueResourceAttr_extends _ url downloaded q' _

lemma discoverAnchors_extends (cfg : CrawlConfig) (base_netloc url : String)
    (soup : List TagNode) (visited : List String) (q0 : List String × List String) :
    QExtends q0 (discoverAnchors cfg base_netloc url soup visited q0) := by
  unfold discoverAnchors
  refine foldl_qExtends (fun q n => ?_) _ q0
  split
  · exact qExtends_rfl q
  · split
    · exact qExtends_rfl q
    · split
      · exact qExtends_rfl q
      · split
        · exact qExtends_rfl q
        · split
          · exact qExtends_rfl q
          · split
            · exact qExtends_addRes _ _
            · exact qExtends_addPage _ _

/-- `processPage` leaves the trace unchanged (a skip) or appends exactly one
page-fetch event. -/
lemma processPage_trace (cfg : CrawlConfig) (w : CrawlWorld) (b : String)
    (st : CrawlState) :
    (processPage cfg w b st).trace = st.trace ∨
    ∃ u, (processPage cfg w b st).trace = st.trace ++ [CrawlEvent.pageFetch u] := by
  unfold processPage
  split
  · exact Or.inl rfl
  · dsimp only
    split
    · exact Or.inl rfl
    · split
      · exact Or.inl rfl
      · split
        · exact Or.inl rfl
        · split
          · exact Or.inr ⟨_, rfl⟩
          · exact Or.inr ⟨_, rfl⟩

/-- `processPage` pops the head of the page queue and only appends after it. -/
lemma processPage_pages (cfg : CrawlConfig) (w : CrawlWorld) (b : String)
    (st : CrawlState) (hne : st.to_visit_pages ≠ []) :
    ∃ app, (processPage cfg w b st).to_visit_pages = st.to_visit_pages.tail ++ app := by
  unfold processPage
  split
  · exact absurd (by assumption) hne
  · next url0 rest heq =>
    rw [heq]
    dsimp only
    split
    · exact ⟨[], by simp⟩
    · split
      · exact ⟨[], by simp⟩
      · split
        · exact ⟨[], by simp⟩
        · split
          · exact ⟨[], by simp⟩
          · next soup _ =>
            obtain ⟨a2, b2, h2⟩ := qExtends_trans
              (discoverResourceTags_extends _ soup _ (rest, st.to_visit_resources))
              (discoverAnchors_extends cfg b _ soup _ _)
            exact ⟨a2, by rw [h2]; simp⟩

end Scrape

/-! ## Claim C8 — pages drained before resources -/

/-- C8: in any iteration of the crawl loop where both queues are non-empty,
the page branch runs: the head page is dequeued (appends only after it), and
no resource batch is dispatched and no resource fetched in that iteration. -/
theorem C8_pages_before_resources (cfg : Scrape.CrawlConfig) (w : Scrape.CrawlWorld)
    (b : String) (st : Scrape.CrawlState)
    (hp : st.to_visit_pages ≠ []) (_hr : st.to_visit_resources ≠ []) :
    Scrape.crawlStep cfg w b st = Scrape.processPage cfg w b st ∧
    Scrape.batches ((Scrape.crawlStep cfg w b st).trace) = Scrape.batches st.trace ∧
    Scrape.resourceFetches ((Scrape.crawlStep cfg w b st).trace) =
      Scrape.resourceFetches st.trace ∧
    ∃ app, (Scrape.crawlStep cfg w b st).to_visit_pages =
      st.to_visit_pages.tail ++ app := by
  have hstep : Scrape.crawlStep cfg w b st = Scrape.processPage cfg w b st := by
    unfold Scrape.crawlStep
    rw [if_neg hp]
  refine ⟨hstep, ?_, ?_, ?_⟩
  · rw [hstep]
    rcases Scrape.processPage_trace cfg w b st with h | ⟨u, h⟩
    · rw [h]
    · rw [h, Scrape.batches_append]
      simp [Scrape.batches]
  · rw [hstep]
    rcases Scrape.processPage_trace cfg w b st with h | ⟨u, h⟩
    · rw [h]
    · rw [h, Scrape.resourceFetches_append]
      simp [Scrape.resourceFetches]
  · rw [hstep]
    exact Scrape.processPage_pages cfg w b st hp

/-- Concrete crawl scenario: the start page holds `<img src="x.png">` and
`<a href="x.png">`; every resource download succeeds. -/
def exampleWorld : Scrape.CrawlWorld :=
  { pageSoup := fun u =>
      if u == "https://h/" then
        some [⟨"img", [("src", "x.png")], none⟩, ⟨"a", [("href", "x.png")], none⟩]
      else none
    robots := fun _ => true
    resourceOk := fun _ => true
    resourceText := fun _ => "" }

/-- Ten-page budget, same-domain only, robots off, five workers. -/
def exampleCfg : Scrape.CrawlConfig := ⟨10, true, false, 5, "out"⟩

/-- One-page budget variant of `exampleCfg`. -/
def budgetCfg : Scrape.CrawlConfig := ⟨1, true, false, 5, "out"⟩

/-- C8, witness: a state with both queues non-empty. -/
theorem C8_pages_before_resources_witness :
    Scrape.crawlStep exampleCfg exampleWorld "h"
        ⟨["https://h/p2.html"], [], ["https://h/x.png"], [], 0, 0, []⟩ =
      Scrape.processPage exampleCfg exampleWorld "h"
        ⟨["https://h/p2.html"], [], ["https://h/x.png"], [], 0, 0, []⟩ ∧
    Scrape.batches ((Scrape.crawlStep exampleCfg exampleWorld "h"
        ⟨["https://h/p2.html"], [], ["https://h/x.png"], [], 0, 0, []⟩).trace) = [] ∧
    Scrape.resourceFetches ((Scrape.crawlStep exampleCfg exampleWorld "h"
        ⟨["https://h/p2.html"], [], ["https://h/x.png"], [], 0, 0, []⟩).trace) = [] ∧
    ∃ app, (Scrape.crawlStep exampleCfg exampleWorld "h"
        ⟨["https://h/p2.html"], [], ["https://h/x.png"], [], 0, 0, []⟩).to_visit_pages =
      [] ++ app := by
  obtain ⟨h1, h2, h3, h4⟩ := C8_pages_before_resources exampleCfg exampleWorld "h"
    ⟨["https://h/p2.html"], [], ["https://h/x.png"], [], 0, 0, []⟩
    (by decide) (by decide)
  exact ⟨h1, h2, h3, h4⟩

/-! ## Claim C2 — the `max_pages` budget -/

/-- C2, counterexample: with `max_pages = 1` and a start page that references
`x.png`, exactly one page is fetched, but the loop condition
`page_count < max_pages` then stops the whole loop: the referenced resource
stays on the queue, is never fetched and never enters the map — contradicting
the claim that resources of the single page are still downloaded. -/
theorem C2_counterexample :
    (Scrape.mirror_crawl budgetCfg exampleWorld "https://h/" 6).page_count = 1 ∧
    Scrape.pageFetches (Scrape.mirror_crawl budgetCfg exampleWorld "https://h/" 6).trace =
      ["https://h/"] ∧
    (Scrape.mirror_crawl budgetCfg exampleWorld "https://h/" 6).to_visit_resources =
      ["https://h/x.png", "https://h/x.png"] ∧
    Scrape.resourceFetches
      (Scrape.mirror_crawl budgetCfg exampleWorld "https://h/" 6).trace = [] ∧
    Scrape.dictHas (Scrape.mirror_crawl budgetCfg exampleWorld "https://h/" 6).downloaded
      "https://h/x.png" = false := by
  exact ⟨by decide, by decide, by decide, by decide, by decide⟩

namespace Scrape

lemma crawlLoop_halt (cfg : CrawlConfig) (w : CrawlWorld) (b : String)
    (st : CrawlState) (h : crawlCond cfg st = false) :
    ∀ fuel, crawlLoop cfg w b fuel st = st := by
  intro fuel
  cases fuel with
  | zero => rfl
  | succ f =>
    unfold crawlLoop
    rw [h]
    simp

end Scrape

/-- C2, amended: with `max_pages = 1` and a fetchable start page, exactly one
page is fetched and the loop halts at once: no resource batch is dispatched,
no resource is fetched, and the map holds only the page itself — resources
referenced by the single page are left on the queue, not downloaded (the
budget check guards the whole loop, resource draining included). -/
theorem C2_amended_budget_halts (cfg : Scrape.CrawlConfig) (w : Scrape.CrawlWorld)
    (start : String) (soup : List Scrape.TagNode) (fuel : Nat)
    (hmax : cfg.max_pages = 1)
    (hfrag : (PyUrl.urldefragL start.data).1 = start.data)
    (hrob : Scrape.allowed_by_robots cfg w start = true)
    (hfetch : w.pageSoup start = some soup) :
    Scrape.pageFetches (Scrape.mirror_crawl cfg w start (fuel + 1)).trace = [start] ∧
    Scrape.resourceFetches (Scrape.mirror_crawl cfg w start (fuel + 1)).trace = [] ∧
    Scrape.batches (Scrape.mirror_crawl cfg w start (fuel + 1)).trace = [] ∧
    (Scrape.mirror_crawl cfg w start (fuel + 1)).page_count = 1 ∧
    (Scrape.mirror_crawl cfg w start (fuel + 1)).downloaded =
      [(start, some (Scrape.loopLocalPath cfg start))] := by
  have hfrag' : (⟨(PyUrl.urldefragL start.data).1⟩ : String) = start := by rw [hfrag]
  have horigin : Scrape.is_same_origin ⟨(Scrape.parse start).netloc⟩ start = true := by
    simp [Scrape.is_same_origin]
  have hpp : Scrape.processPage cfg w ⟨(Scrape.parse start).netloc⟩
      (Scrape.initState start) =
      { to_visit_pages := (Scrape.discoverAnchors cfg ⟨(Scrape.parse start).netloc⟩
          start soup [] (Scrape.discoverResourceTags start soup
            [(start, some (Scrape.loopLocalPath cfg start))] ([], []))).1
        visited_pages := [start]
        to_visit_resources := (Scrape.discoverAnchors cfg ⟨(Scrape.parse start).netloc⟩
          start soup [] (Scrape.discoverResourceTags start soup
            [(start, some (Scrape.loopLocalPath cfg start))] ([], []))).2
        downloaded := [(start, some (Scrape.loopLocalPath cfg start))]
        page_count := 1
        resource_count := 0
        trace := [Scrape.CrawlEvent.pageFetch start] } := by
    unfold Scrape.processPage Scrape.initState
    dsimp only
    rw [hfrag']
    rw [if_neg (by simp)]
    rw [if_neg (by simp [horigin])]
    rw [if_neg (by simp [hrob])]
    rw [hfetch]
    dsimp only
    simp [Scrape.dictSet]
  have hcond1 : Scrape.crawlCond cfg (Scrape.processPage cfg w
      ⟨(Scrape.parse start).netloc⟩ (Scrape.initState start)) = false := by
    rw [hpp]
    simp [Scrape.crawlCond, hmax]
  have hrun : Scrape.mirror_crawl cfg w start (fuel + 1) =
      Scrape.processPage cfg w ⟨(Scrape.parse start).netloc⟩ (Scrape.initState start) := by
    unfold Scrape.mirror_crawl
    show Scrape.crawlLoop cfg w ⟨(Scrape.parse start).netloc⟩ (fuel + 1)
      (Scrape.initState start) = _
    unfold Scrape.crawlLoop
    rw [if_pos (by simp [Scrape.crawlCond, Scrape.initState, hmax])]
    rw [show Scrape.crawlStep cfg w ⟨(Scrape.parse start).netloc⟩
        (Scrape.initState start) = Scrape.processPage cfg w
        ⟨(Scrape.parse start).netloc⟩ (Scrape.initState start) from by
      unfold Scrape.crawlStep
      rw [if_neg (by simp [Scrape.initState])]]
    exact Scrape.crawlLoop_halt cfg w _ _ hcond1 fuel
  rw [hrun, hpp]
  refine ⟨?_, ?_, ?_, rfl, rfl⟩ <;>
    simp [Scrape.pageFetches, Scrape.resourceFetches, Scrape.batches]

/-- C2, witness: the amended theorem at the concrete one-page world. -/
theorem C2_amended_budget_halts_witness :
    Scrape.pageFetches (Scrape.mirror_crawl budgetCfg exampleWorld "https://h/" 6).trace =
      ["https://h/"] ∧
    Scrape.resourceFetches
      (Scrape.mirror_crawl budgetCfg exampleWorld "https://h/" 6).trace = [] ∧
    Scrape.batches (Scrape.mirror_crawl budgetCfg exampleWorld "https://h/" 6).trace = [] ∧
    (Scrape.mirror_crawl budgetCfg exampleWorld "https://h/" 6).page_count = 1 ∧
    (Scrape.mirror_crawl budgetCfg exampleWorld "https://h/" 6).downloaded =
      [("https://h/", some (Scrape.loopLocalPath budgetCfg "https://h/"))] :=
  C2_amended_budget_halts budgetCfg exampleWorld "https://h/"
    [⟨"img", [("src", "x.png")], none⟩, ⟨"a", [("href", "x.png")], none⟩] 5
    (by decide) (by decide) (by decide) (by decide)

/-! ## Claim C3 — dedup of fetches -/

namespace Scrape

lemma processResult_trace (w : CrawlWorld) (st : CrawlState) (item : String × String) :
    (processResult w st item).trace = st.trace ++ [CrawlEvent.resourceFetch item.1] := by
  unfold processResult
  dsimp only
  split
  · split <;> rfl
  · rfl

lemma processResult_visited (w : CrawlWorld) (st : CrawlState) (item : String × String) :
    (processResult w st item).visited_pages = st.visited_pages := by
  unfold processResult
  dsimp only
  split
  · split <;> rfl
  · rfl

lemma processResult_pages (w : CrawlWorld) (st : CrawlState) (item : String × String) :
    (processResult w st item).to_visit_pages = st.to_visit_pages := by
  unfold processResult
  dsimp only
  split
  · split <;> rfl
  · rfl

lemma foldl_processResult_trace (w : CrawlWorld) :
    ∀ (batch : List (String × String)) (st : CrawlState),
    (batch.foldl (processResult w) st).trace =
      st.trace ++ batch.map (fun p => CrawlEvent.resourceFetch p.1) := by
  intro batch
  induction batch with
  | nil => intro st; simp
  | cons x xs ih =>
    intro st
    rw [List.foldl_cons, ih, processResult_trace]
    simp

lemma foldl_processResult_visited (w : CrawlWorld) :
    ∀ (batch : List (String × String)) (st : CrawlState),
    (batch.foldl (processResult w) st).visited_pages = st.visited_pages := by
  intro batch
  induction batch with
  | nil => intro st; rfl
  | cons x xs ih =>
    intro st
    rw [List.foldl_cons, ih, processResult_visited]

lemma buildBatch_visited (cfg : CrawlConfig) (w : CrawlWorld) (b : String) :
    ∀ (k : Nat) (st : CrawlState) (batch : List (String × String)),
    (buildBatch cfg w b k st batch).1.visited_pages = st.visited_pages := by
  intro k
  induction k with
  | zero => intro st batch; rfl
  | succ k ih =>
    intro st batch
    unfold buildBatch
    split
    · exact ih st batch
    · dsimp only
      split
      · exact ih _ batch
      · split
        · exact ih _ batch
        · split
          · exact ih _ batch
          · exact ih _ _

lemma buildBatch_trace (cfg : CrawlConfig) (w : CrawlWorld) (b : String) :
    ∀ (k : Nat) (st : CrawlState) (batch : List (String × String)),
    (buildBatch cfg w b k st batch).1.trace = st.trace := by
  intro k
  induction k with
  | zero => intro st batch; rfl
  | succ k ih =>
    intro st batch
    unfold buildBatch
    split
    · exact ih st batch
    · dsimp only
      split
      · exact ih _ batch
      · split
        · exact ih _ batch
        · split
          · exact ih _ batch
          · exact ih _ _

lemma dictHas_dictSet_mono {d : List (String × Option String)} {k u : String}
    {v : Option String} (h : dictHas d u = true) : dictHas (dictSet d k v) u = true := by
  unfold dictHas dictSet at *
  split
  · rw [List.any_map]
    have : ((fun p => p.1 == u) ∘ fun p : String × Option String =>
        if p.1 == k then (p.1, v) else p) = fun p => p.1 == u := by
      funext p
      by_cases hp : p.1 = k <;> simp [hp]
    rw [this]
    exact h
  · rw [List.any_append]
    simp [h]

lemma dictHas_of_dictSet_false {d : List (String × Option String)} {k u : String}
    {v : Option String} (h : dictHas (dictSet d k v) u = false) : dictHas d u = false := by
  by_contra hc
  rw [← ne_eq, Bool.ne_false_iff] at hc
  rw [dictHas_dictSet_mono hc] at h
  exact absurd h (by simp)

lemma buildBatch_spec (cfg : CrawlConfig) (w : CrawlWorld) (b : String) :
    ∀ (k : Nat) (st : CrawlState) (batch : List (String × String)),
    ∃ items, (buildBatch cfg w b k st batch).2 = batch ++ items ∧
      ∀ it ∈ items, dictHas st.downloaded it.1 = false := by
  intro k
  induction k with
  | zero =>
    intro st batch
    exact ⟨[], by simp [buildBatch], by simp⟩
  | succ k ih =>
    intro st batch
    unfold buildBatch
    split
    · exact ih st batch
    · dsimp only
      split
      · exact ih _ batch
      · next hhas =>
        split
        · obtain ⟨items, h1, h2⟩ := ih _ batch
          exact ⟨items, h1, fun it hit => dictHas_of_dictSet_false (h2 it hit)⟩
        · split
          · obtain ⟨items, h1, h2⟩ := ih _ batch
            exact ⟨items, h1, fun it hit => dictHas_of_dictSet_false (h2 it hit)⟩
          · obtain ⟨items, h1, h2⟩ := ih _ _
            refine ⟨_ :: items, by rw [h1, List.append_assoc]; rfl, ?_⟩
            intro it hit
            rcases List.mem_cons.1 hit with rfl | hmem
            · simpa using hhas
            · exact h2 it hmem

end Scrape

namespace Scrape

/-- The dedup invariant of the page frontier: fetched pages are pairwise
distinct and every fetched page is in the visited set. -/
def PageInv (st : CrawlState) : Prop :=
  (pageFetches st.trace).Nodup ∧ ∀ u ∈ pageFetches st.trace, u ∈ st.visited_pages

lemma pageInv_init (start : String) : PageInv (initState start) := by
  constructor <;> simp [initState, pageFetches]

lemma pageInv_of_fetch {st : CrawlState} (h : PageInv st) (url : String)
    (hvis : url ∉ st.visited_pages) :
    (pageFetches (st.trace ++ [CrawlEvent.pageFetch url])).Nodup ∧
    ∀ u ∈ pageFetches (st.trace ++ [CrawlEvent.pageFetch url]),
      u ∈ st.visited_pages ++ [url] := by
  have hshape : pageFetches (st.trace ++ [CrawlEvent.pageFetch url]) =
      pageFetches st.trace ++ [url] := by
    rw [pageFetches_append]
    rfl
  constructor
  · rw [hshape, List.nodup_append]
    refine ⟨h.1, List.nodup_singleton url, ?_⟩
    intro a ha hb
    rw [List.mem_singleton] at hb
    subst hb
    exact hvis (h.2 a ha)
  · intro u hu
    rw [hshape] at hu
    rcases List.mem_append.1 hu with hu | hu
    · exact List.mem_append_left _ (h.2 u hu)
    · exact List.mem_append_right _ hu

lemma processPage_pageInv (cfg : CrawlConfig) (w : CrawlWorld) (b : String)
    (st : CrawlState) (h : PageInv st) : PageInv (processPage cfg w b st) := by
  unfold processPage
  split
  · exact h
  · next url0 rest heq =>
    dsimp only
    split
    · exact h
    · next hvis =>
      have hv : (⟨(PyUrl.urldefragL url0.data).1⟩ : String) ∉ st.visited_pages := by
        simpa using hvis
      split
      · exact ⟨h.1, fun u hu => List.mem_append_left _ (h.2 u hu)⟩
      · split
        · exact ⟨h.1, fun u hu => List.mem_append_left _ (h.2 u hu)⟩
        · split
          · exact ⟨(pageInv_of_fetch h _ hv).1, (pageInv_of_fetch h _ hv).2⟩
          · exact ⟨(pageInv_of_fetch h _ hv).1, (pageInv_of_fetch h _ hv).2⟩

end Scrape

namespace Scrape

lemma pageFetches_resourceFetch_map (l : List (String × String)) :
    pageFetches (l.map (fun p => CrawlEvent.resourceFetch p.1)) = [] := by
  induction l with
  | nil => rfl
  | cons x xs ih => simp [pageFetches, List.filterMap_cons]

lemma batches_resourceFetch_map (l : List (String × String)) :
    batches (l.map (fun p => CrawlEvent.resourceFetch p.1)) = [] := by
  induction l with
  | nil => rfl
  | cons x xs ih => simp [batches, List.filterMap_cons]

lemma processResourceBatch_pageInv (cfg : CrawlConfig) (w : CrawlWorld) (b : String)
    (st : CrawlState) (h : PageInv st) : PageInv (processResourceBatch cfg w b st) := by
  unfold processResourceBatch
  split
  · exact h
  · dsimp only
    split
    · constructor
      · rw [buildBatch_trace]
        exact h.1
      · intro u hu
        rw [buildBatch_trace] at hu
        rw [buildBatch_visited]
        exact h.2 u hu
    · constructor
      · rw [foldl_processResult_trace]
        dsimp only
        rw [buildBatch_trace, pageFetches_append, pageFetches_append,
          pageFetches_resourceFetch_map]
        simpa [pageFetches] using h.1
      · intro u hu
        rw [foldl_processResult_trace] at hu
        dsimp only at hu ⊢
        rw [buildBatch_trace, pageFetches_append, pageFetches_append,
          pageFetches_resourceFetch_map] at hu
        rw [foldl_processResult_visited]
        dsimp only
        rw [buildBatch_visited]
        refine h.2 u ?_
        simpa [pageFetches] using hu

lemma crawlStep_pageInv (cfg : CrawlConfig) (w : CrawlWorld) (b : String)
    (st : CrawlState) (h : PageInv st) : PageInv (crawlStep cfg w b st) := by
  unfold crawlStep
  split
  · exact processResourceBatch_pageInv cfg w b st h
  · exact processPage_pageInv cfg w b st h

lemma crawlLoop_pageInv (cfg : CrawlConfig) (w : CrawlWorld) (b : String) :
    ∀ (fuel : Nat) (st : CrawlState), PageInv st → PageInv (crawlLoop cfg w b fuel st) := by
  intro fuel
  induction fuel with
  | zero => exact fun st h => h
  | succ f ih =>
    intro st h
    unfold crawlLoop
    split
    · exact ih _ (crawlStep_pageInv cfg w b st h)
    · exact h

end Scrape

/-! C3 theorems -/

/-- C3, counterexample: the start page of `exampleWorld` references `x.png`
both as `<img src>` and as `<a href>`; the anchor enqueue has no
resource-queue membership check, so the dispatched batch contains the URL
twice and it is fetched twice — refuting both "each batch contains no
duplicate URLs" and "no URL is fetched more than once". -/
theorem C3_counterexample :
    Scrape.batches (Scrape.mirror_crawl exampleCfg exampleWorld "https://h/" 6).trace =
      [["https://h/x.png", "https://h/x.png"]] ∧
    (Scrape.resourceFetches
      (Scrape.mirror_crawl exampleCfg exampleWorld "https://h/" 6).trace).count
      "https://h/x.png" = 2 ∧
    ¬ (Scrape.resourceFetches
      (Scrape.mirror_crawl exampleCfg exampleWorld "https://h/" 6).trace).Nodup := by
  exact ⟨by decide, by decide, by decide⟩

/-- C3, amended: page fetches are never repeated (the visited set guards
them), and every URL entering a dispatched batch was absent from the
`downloaded` map when the batch was built; however a batch may contain the
same resource URL twice (anchors that look like resources are enqueued with
no resource-queue membership check), so a resource can be fetched more than
once within one batch. -/
theorem C3_amended_dedup :
    (∀ (cfg : Scrape.CrawlConfig) (w : Scrape.CrawlWorld) (start : String) (fuel : Nat),
      (Scrape.pageFetches (Scrape.mirror_crawl cfg w start fuel).trace).Nodup) ∧
    (∀ (cfg : Scrape.CrawlConfig) (w : Scrape.CrawlWorld) (b : String)
        (st : Scrape.CrawlState), st.to_visit_pages = [] →
      ∃ nbs, Scrape.batches ((Scrape.crawlStep cfg w b st).trace) =
          Scrape.batches st.trace ++ nbs ∧
        ∀ us ∈ nbs, ∀ u ∈ us, Scrape.dictHas st.downloaded u = false) := by
  constructor
  · intro cfg w start fuel
    exact (Scrape.crawlLoop_pageInv cfg w _ fuel _ (Scrape.pageInv_init start)).1
  · intro cfg w b st hp
    unfold Scrape.crawlStep
    rw [if_pos hp]
    unfold Scrape.processResourceBatch
    split
    · exact ⟨[], by simp, by simp⟩
    · dsimp only
      obtain ⟨items, hitems, hprop⟩ := Scrape.buildBatch_spec cfg w b
        (min (cfg.max_workers * 2) st.to_visit_resources.length) st []
      split
      · refine ⟨[], ?_, by simp⟩
        rw [Scrape.buildBatch_trace]
        simp
      · refine ⟨[(Scrape.buildBatch cfg w b
          (min (cfg.max_workers * 2) st.to_visit_resources.length) st []).2.map
            (fun p => p.1)], ?_, ?_⟩
        · rw [Scrape.foldl_processResult_trace]
          dsimp only
          rw [Scrape.buildBatch_trace, Scrape.batches_append, Scrape.batches_append,
            Scrape.batches_resourceFetch_map]
          simp [Scrape.batches]
        · intro us hus u hu
          rw [List.mem_singleton] at hus
          subst hus
          rw [hitems] at hu
          rw [List.nil_append] at hu
          obtain ⟨it, hit, rfl⟩ := List.mem_map.1 hu
          exact hprop it hit

/-- C3, witness: the second conjunct of the amended theorem at a concrete
state with an empty page queue. -/
theorem C3_amended_dedup_witness :
    ∃ nbs, Scrape.batches ((Scrape.crawlStep exampleCfg exampleWorld "h"
        ⟨[], [], ["https://h/x.png"], [], 1, 0, []⟩).trace) =
      Scrape.batches ([] : List Scrape.CrawlEvent) ++ nbs ∧
      ∀ us ∈ nbs, ∀ u ∈ us,
        Scrape.dictHas ([] : List (String × Option String)) u = false :=
  C3_amended_dedup.2 exampleCfg exampleWorld "h"
    ⟨[], [], ["https://h/x.png"], [], 1, 0, []⟩ rfl

/-! ## Claim C4 — failed targets are left unchanged by the rewrite pass -/

namespace Scrape

/-- "The resolved absolute URL has no successful entry in the rewrite
mapping": the reference does not resolve, resolves to a falsy URL, or
resolves to a URL absent from the successes-only mapping. -/
def resolutionFails (page_url : String) (mapping : List (String × String))
    (u : String) : Prop :=
  match normalize_url page_url u with
  | none => True
  | some abs => abs = "" ∨ lookupMap mapping abs = none

lemma matchClose_decomp {pre l4 consumed rest : List Char}
    (h : matchClose pre l4 = some (consumed, rest)) : consumed ++ rest = pre ++ l4 := by
  have hl4 := List.takeWhile_append_dropWhile (p := PyStr.isSpace) (l := l4)
  unfold matchClose at h
  rcases hdw : l4.dropWhile PyStr.isSpace with _ | ⟨c, rest5⟩
  · rw [hdw] at h
    exact absurd h (by simp)
  · rw [hdw] at h hl4
    dsimp only at h
    by_cases hc : c = ')'
    · rw [if_pos hc] at h
      simp only [Option.some.injEq, Prod.mk.injEq] at h
      obtain ⟨h1, h2⟩ := h
      subst h1
      subst h2
      conv_rhs => rw [← hl4]
      simp
    · rw [if_neg hc] at h
      exact absurd h (by simp)

lemma matchQuoted_decomp {q : Char} {l2 consumed grp rest : List Char}
    (h : matchQuoted q l2 = some (consumed, grp, rest)) : consumed ++ rest = q :: l2 := by
  have hl2 := List.takeWhile_append_dropWhile (p := cssClassChar) (l := l2)
  unfold matchQuoted at h
  rcases hdw : l2.dropWhile cssClassChar with _ | ⟨q2, l4⟩
  · rw [hdw] at h
    exact absurd h (by simp)
  · rw [hdw] at h hl2
    dsimp only at h
    by_cases hc : (l2.takeWhile cssClassChar ≠ [] && q2 = q) = true
    · rw [if_pos hc] at h
      rcases hmc : matchClose (q :: l2.takeWhile cssClassChar ++ [q2]) l4 with _ | p
      · rw [hmc] at h
        exact absurd h (by simp)
      · rw [hmc] at h
        dsimp only [Option.map] at h
        simp only [Option.some.injEq, Prod.mk.injEq] at h
        obtain ⟨h1, _, h3⟩ := h
        subst h1
        subst h3
        have hd := matchClose_decomp hmc
        rw [hd]
        conv_rhs => rw [← hl2]
        simp
    · rw [if_neg hc] at h
      exact absurd h (by simp)

lemma matchAfterParen_decomp {l consumed grp rest : List Char}
    (h : matchAfterParen l = some (consumed, grp, rest)) : consumed ++ rest = l := by
  have hl := List.takeWhile_append_dropWhile (p := cssClassChar) (l := l)
  unfold matchAfterParen at h
  rcases hdw : l.dropWhile cssClassChar with _ | ⟨q, l2⟩
  · rw [hdw] at h
    exact absurd h (by simp)
  · rw [hdw] at h hl
    dsimp only at h
    by_cases h1 : ((q = '\'' || q = '"') && (l.takeWhile cssClassChar).all PyStr.isSpace) = true
    · rw [if_pos h1] at h
      rcases hmq : matchQuoted q l2 with _ | p
      · rw [hmq] at h
        exact absurd h (by simp)
      · rw [hmq] at h
        dsimp only [Option.map] at h
        simp only [Option.some.injEq, Prod.mk.injEq] at h
        obtain ⟨hc1, _, hc3⟩ := h
        subst hc1
        subst hc3
        rw [List.append_assoc]
        rcases p with ⟨pc, pg, pr⟩
        rw [matchQuoted_decomp hmq]
        exact hl
    · rw [if_neg h1] at h
      by_cases h2 : q = ')'
      · rw [if_pos h2] at h
        by_cases h3 : ((l.takeWhile cssClassChar).any fun c => ¬ PyStr.isSpace c) = true
        · rw [if_pos h3] at h
          simp only [Option.some.injEq, Prod.mk.injEq] at h
          obtain ⟨hc1, _, hc3⟩ := h
          subst hc1
          subst hc3
          conv_rhs => rw [← hl]
          simp
        · rw [if_neg h3] at h
          by_cases h4 : l.takeWhile cssClassChar ≠ []
          · rw [if_pos h4] at h
            simp only [Option.some.injEq, Prod.mk.injEq] at h
            obtain ⟨hc1, _, hc3⟩ := h
            subst hc1
            subst hc3
            conv_rhs => rw [← hl]
            simp
          · rw [if_neg h4] at h
            exact absurd h (by simp)
      · rw [if_neg h2] at h
        exact absurd h (by simp)

lemma cssScan_text (fuel : Nat) : ∀ l : List Char,
    ((cssScan fuel l).map CssSeg.text).flatten = l := by
  induction fuel with
  | zero =>
    intro l
    cases l <;> simp [cssScan, CssSeg.text]
  | succ f ih =>
    intro l
    cases l with
    | nil => simp [cssScan]
    | cons c rest =>
      unfold cssScan
      split
      · split
        · next consumed grp remaining heq =>
          have hd := matchAfterParen_decomp heq
          simp only [List.map_cons, List.flatten_cons, CssSeg.text, ih]
          rw [List.append_assoc, hd]
          exact List.take_append_drop 4 (c :: rest)
        · simp only [List.map_cons, List.flatten_cons, CssSeg.text, ih]
          rfl
      · simp only [List.map_cons, List.flatten_cons, CssSeg.text, ih]
        rfl

lemma cssRepl_of_fails (page_url : String) (mapping : List (String × String))
    (pl : String) (full grp : List Char)
    (h : resolutionFails page_url mapping
      ⟨PyStr.stripCharsL "'\"".data (PyStr.stripL grp)⟩) :
    cssRepl page_url mapping pl full grp = full := by
  unfold cssRepl
  unfold resolutionFails at h
  split at h
  · rfl
  · rcases h with h | h
    · subst h
      simp
    · rw [h]
      split <;> rfl

lemma rewriteAttrValue_of_fails (page_url : String) (mapping : List (String × String))
    (val : String) (h : resolutionFails page_url mapping val) :
    rewriteAttrValue page_url mapping val = val := by
  unfold rewriteAttrValue
  unfold resolutionFails at h
  split at h
  · rfl
  · rcases h with h | h
    · subst h
      simp
    · rw [h]
      split <;> rfl

lemma rewriteSrcsetCand_of_fails (page_url : String) (mapping : List (String × String))
    (part : List Char) (u : List Char) (restc : List (List Char))
    (hsplit : PyStr.splitWs part = u :: restc)
    (h : resolutionFails page_url mapping ⟨u⟩) :
    rewriteSrcsetCand page_url mapping part = joinSeq " ".data (u :: restc) := by
  unfold rewriteSrcsetCand
  rw [hsplit]
  dsimp only
  rw [rewriteAttrValue_of_fails page_url mapping ⟨u⟩ h]

lemma buildMapping_none (downloaded : List (String × Option String)) (url : String)
    (h : ∀ v, (url, v) ∈ downloaded → v = none) :
    lookupMap (buildMapping downloaded) url = none := by
  unfold lookupMap
  rw [List.find?_eq_none.2]
  · rfl
  · intro x hx
    obtain ⟨p, hp, hpx⟩ := List.mem_filterMap.1 hx
    intro hbeq
    rcases hv : p.2 with _ | v
    · rw [hv] at hpx
      simp [buildMapping] at hpx
    · rw [hv] at hpx
      dsimp only at hpx
      split at hpx
      · have hx1 : x = (p.1, v) := (Option.some.inj hpx).symm
        subst hx1
        have hpu : p.1 = url := by simpa using hbeq
        have hpeq : p = (url, some v) := by
          rw [Prod.ext_iff]
          exact ⟨hpu, hv⟩
        have := h (some v) (hpeq ▸ hp)
        simp at this
      · simp at hpx

end Scrape

/-- C4: references whose resolved URL has no successful mapping entry are
left unchanged by the rewrite pass — as a whole (CSS text with only failing
references is returned verbatim) and reference-by-reference (the `url(...)`
replacement, the attribute rewrite and the `srcset`-candidate rewrite all
return their input when resolution fails); and a URL all of whose
`downloaded` entries are failures is absent from the rewrite mapping. -/
theorem C4_failed_targets_unchanged :
    (∀ (css page_url : String) (mapping : List (String × String)) (pl : String),
      (∀ full grp, Scrape.CssSeg.ref full grp ∈
          Scrape.cssScan css.data.length css.data →
        Scrape.resolutionFails page_url mapping
          ⟨PyStr.stripCharsL "'\"".data (PyStr.stripL grp)⟩) →
      Scrape.rewrite_css_urls css page_url mapping pl = css) ∧
    (∀ (page_url : String) (mapping : List (String × String)) (pl : String)
        (full grp : List Char),
      Scrape.resolutionFails page_url mapping
        ⟨PyStr.stripCharsL "'\"".data (PyStr.stripL grp)⟩ →
      Scrape.cssRepl page_url mapping pl full grp = full) ∧
    (∀ (page_url : String) (mapping : List (String × String)) (val : String),
      Scrape.resolutionFails page_url mapping val →
      Scrape.rewriteAttrValue page_url mapping val = val) ∧
    (∀ (page_url : String) (mapping : List (String × String)) (part u : List Char)
        (restc : List (List Char)),
      PyStr.splitWs part = u :: restc →
      Scrape.resolutionFails page_url mapping ⟨u⟩ →
      Scrape.rewriteSrcsetCand page_url mapping part =
        Scrape.joinSeq " ".data (u :: restc)) ∧
    (∀ (downloaded : List (String × Option String)) (url : String),
      (∀ v, (url, v) ∈ downloaded → v = none) →
      Scrape.lookupMap (Scrape.buildMapping downloaded) url = none) := by
  refine ⟨?_, Scrape.cssRepl_of_fails, Scrape.rewriteAttrValue_of_fails,
    Scrape.rewriteSrcsetCand_of_fails, Scrape.buildMapping_none⟩
  intro css page_url mapping pl hall
  unfold Scrape.rewrite_css_urls
  ext1
  show (((Scrape.cssScan css.data.length css.data).map _).flatten : List Char) = _
  rw [List.map_congr_left (g := Scrape.CssSeg.text) ?_, Scrape.cssScan_text]
  intro seg hseg
  cases seg with
  | lit s => rfl
  | ref full grp =>
    show Scrape.cssRepl page_url mapping pl full grp = full
    exact Scrape.cssRepl_of_fails page_url mapping pl full grp (hall full grp hseg)

/-- C4, witness: a CSS text whose one reference is unmapped is returned
verbatim, and each rewrite primitive leaves unmapped inputs unchanged. -/
theorem C4_failed_targets_unchanged_witness :
    Scrape.rewrite_css_urls "b{x:url(m.png)}" "https://h/s.css" [] "out/s.css" =
      "b{x:url(m.png)}" ∧
    Scrape.rewriteAttrValue "https://h/p.html" [] "m.png" = "m.png" ∧
    Scrape.rewriteSrcsetCand "https://h/p.html" [] "m.png 2x".data =
      Scrape.joinSeq " ".data ("m.png".data :: ["2x".data]) ∧
    Scrape.lookupMap (Scrape.buildMapping [("https://h/m.png", none)])
      "https://h/m.png" = none := by
  refine ⟨?_, ?_, ?_, ?_⟩
  · refine C4_failed_targets_unchanged.1 "b{x:url(m.png)}" "https://h/s.css" []
      "out/s.css" ?_
    intro full grp hmem
    have hthis : Scrape.CssSeg.ref full grp ∈
        [Scrape.CssSeg.lit ['b'], Scrape.CssSeg.lit ['{'], Scrape.CssSeg.lit ['x'],
         Scrape.CssSeg.lit [':'],
         Scrape.CssSeg.ref "url(m.png)".data "m.png".data, Scrape.CssSeg.lit ['}']] := hmem
    simp only [List.mem_cons, List.mem_singleton] at hthis
    rcases hthis with h | h | h | h | h | h
    · exact absurd h (by simp)
    · exact absurd h (by simp)
    · exact absurd h (by simp)
    · exact absurd h (by simp)
    · obtain ⟨hf, hg⟩ := Scrape.CssSeg.ref.inj h
      subst hg
      exact Or.inr rfl
    · exact absurd h (by simp)
  · exact C4_failed_targets_unchanged.2.2.1 "https://h/p.html" [] "m.png" (Or.inr rfl)
  · exact C4_failed_targets_unchanged.2.2.2.1 "https://h/p.html" [] "m.png 2x".data
      "m.png".data ["2x".data] (by decide) (Or.inr rfl)
  · exact C4_failed_targets_unchanged.2.2.2.2 [("https://h/m.png", none)]
      "https://h/m.png" (by intro v hv; simp at hv; exact hv)

/-! ## Path-layout lemmas: `afterLast`, `splitChar`/`joinChar`, `normpath` -/

theorem takeWhile_append_all {α : Type} (p : α → Bool) (u v : List α)
    (h : ∀ x ∈ u, p x) : (u ++ v).takeWhile p = u ++ v.takeWhile p := by
  induction u with
  | nil => simp
  | cons c u ih =>
    have hc : p c = true := h c (by simp)
    simp only [List.cons_append, List.takeWhile_cons, hc, if_true]
    rw [ih (fun x hx => h x (by simp [hx]))]

theorem takeWhile_stop_slash (w z : List Char) :
    (w ++ '/' :: z).takeWhile (fun c => c ≠ '/') =
      w.takeWhile (fun c => c ≠ '/') := by
  induction w with
  | nil => simp
  | cons c w ih =>
    simp only [List.cons_append, List.takeWhile_cons, ih]

theorem dropWhile_head_false {α : Type} (p : α → Bool) (l : List α) (c : α)
    (w : List α) (h : l.dropWhile p = c :: w) : p c = false := by
  induction l with
  | nil => simp [List.dropWhile] at h
  | cons a l ih =>
    rw [List.dropWhile_cons] at h
    by_cases ha : p a = true
    · rw [if_pos ha] at h; exact ih h
    · rw [if_neg ha] at h
      cases h
      simpa using ha

theorem afterLast_no_slash (v : List Char) (h : ∀ x ∈ v, x ≠ '/') :
    PyPath.afterLast v = v := by
  unfold PyPath.afterLast
  rw [List.takeWhile_eq_self_iff.2
    (fun x hx => decide_eq_true (h x (List.mem_reverse.1 hx))), List.reverse_reverse]

theorem afterLast_chars (l : List Char) : ∀ x ∈ PyPath.afterLast l, x ≠ '/' := by
  intro x hx
  unfold PyPath.afterLast at hx
  simpa using List.mem_takeWhile_imp (List.mem_reverse.1 hx)

theorem afterLast_append_cons (u v : List Char) :
    PyPath.afterLast (u ++ '/' :: v) = PyPath.afterLast v := by
  unfold PyPath.afterLast
  have h : (u ++ '/' :: v).reverse = v.reverse ++ '/' :: u.reverse := by simp
  rw [h, takeWhile_stop_slash]

theorem afterLast_append_right (u v : List Char) (h : ∀ x ∈ v, x ≠ '/') :
    PyPath.afterLast (u ++ v) = PyPath.afterLast u ++ v := by
  unfold PyPath.afterLast
  rw [List.reverse_append,
    takeWhile_append_all _ _ _ (fun x hx => decide_eq_true (h x (List.mem_reverse.1 hx))),
    List.reverse_append, List.reverse_reverse]

theorem afterLast_suffix (l : List Char) : PyPath.afterLast l <:+ l := by
  have h := List.takeWhile_prefix (l := l.reverse) (p := fun c => decide (c ≠ '/'))
  have h2 := List.reverse_suffix.2 h
  simpa [PyPath.afterLast] using h2

theorem afterLast_decomp (l : List Char) :
    (∃ u, l = u ++ '/' :: PyPath.afterLast l) ∨ (∀ x ∈ l, x ≠ '/') := by
  have hsplit := List.takeWhile_append_dropWhile
    (p := fun c => decide (c ≠ '/')) (l := l.reverse)
  rcases hdw : l.reverse.dropWhile (fun c => decide (c ≠ '/')) with _ | ⟨c, w⟩
  · right
    intro x hx
    rw [hdw, List.append_nil] at hsplit
    have : x ∈ l.reverse.takeWhile (fun c => decide (c ≠ '/')) := by
      rw [hsplit]; exact List.mem_reverse.2 hx
    simpa using List.mem_takeWhile_imp this
  · left
    have hc : c = '/' := by
      have hf := dropWhile_head_false _ _ _ _ hdw
      have := of_decide_eq_false hf
      simpa using this
    subst hc
    refine ⟨w.reverse, ?_⟩
    rw [hdw] at hsplit
    have hl : l = (l.reverse.takeWhile (fun c => decide (c ≠ '/')) ++ '/' :: w).reverse := by
      rw [hsplit, List.reverse_reverse]
    conv_lhs => rw [hl]
    simp [PyPath.afterLast, List.reverse_append]

theorem splitChar_ne_nil (sep : Char) (l : List Char) : PyStr.splitChar sep l ≠ [] := by
  cases l with
  | nil => simp [PyStr.splitChar]
  | cons c rest =>
    unfold PyStr.splitChar
    by_cases hc : c = sep
    · simp [hc]
    · rw [if_neg hc]
      rcases h : PyStr.splitChar sep rest with _ | ⟨g, gs⟩ <;> simp [h]

theorem splitChar_cons_eq (sep c : Char) (rest : List Char) :
    PyStr.splitChar sep (c :: rest) =
      if c = sep then [] :: PyStr.splitChar sep rest
      else match PyStr.splitChar sep rest with
        | [] => [[c]]
        | g :: gs => (c :: g) :: gs := rfl

theorem joinChar_splitChar (sep : Char) (l : List Char) :
    PyStr.joinChar sep (PyStr.splitChar sep l) = l := by
  induction l with
  | nil => rfl
  | cons c rest ih =>
    rw [splitChar_cons_eq]
    by_cases hc : c = sep
    · rw [if_pos hc]
      rcases h : PyStr.splitChar sep rest with _ | ⟨g, gs⟩
      · exact absurd h (splitChar_ne_nil sep rest)
      · rw [h] at ih
        show [] ++ sep :: PyStr.joinChar sep (g :: gs) = c :: rest
        rw [ih, hc]
        simp
    · rw [if_neg hc]
      rcases h : PyStr.splitChar sep rest with _ | ⟨g, gs⟩
      · exact absurd h (splitChar_ne_nil sep rest)
      · rw [h] at ih
        dsimp only
        rcases gs with _ | ⟨g2, gs2⟩
        · show c :: g = c :: rest
          rw [← ih]
          rfl
        · show (c :: g) ++ sep :: PyStr.joinChar sep (g2 :: gs2) = c :: rest
          rw [← ih]
          rfl

theorem splitChar_append_sep (sep : Char) (u v : List Char) :
    PyStr.splitChar sep (u ++ sep :: v) =
      PyStr.splitChar sep u ++ PyStr.splitChar sep v := by
  induction u with
  | nil => simp [PyStr.splitChar]
  | cons c u ih =>
    rw [List.cons_append, splitChar_cons_eq sep c (u ++ sep :: v),
      splitChar_cons_eq sep c u, ih]
    by_cases hc : c = sep
    · rw [if_pos hc, if_pos hc]
      simp
    · rw [if_neg hc, if_neg hc]
      rcases h : PyStr.splitChar sep u with _ | ⟨g, gs⟩
      · exact absurd h (splitChar_ne_nil sep u)
      · simp

theorem splitChar_no_sep (sep : Char) (l : List Char) (h : ∀ x ∈ l, x ≠ sep) :
    PyStr.splitChar sep l = [l] := by
  induction l with
  | nil => rfl
  | cons c rest ih =>
    have hc : c ≠ sep := h c (by simp)
    unfold PyStr.splitChar
    rw [if_neg hc, ih (fun x hx => h x (by simp [hx]))]

theorem normComps_concat_good (s : Nat) (cs : List (List Char)) (a : List Char)
    (h1 : a ≠ []) (h2 : a ≠ ".".data) (h3 : a ≠ "..".data) :
    PyPath.normComps s (cs ++ [a]) = PyPath.normComps s cs ++ [a] := by
  unfold PyPath.normComps
  rw [List.foldl_concat]
  simp [h1, h2, h3]

theorem normComps_all_good (s : Nat) (cs : List (List Char))
    (h : ∀ c ∈ cs, c ≠ [] ∧ c ≠ ".".data ∧ c ≠ "..".data) :
    PyPath.normComps s cs = cs := by
  induction cs using List.reverseRecOn with
  | nil => rfl
  | append_singleton cs a ih =>
    have ha := h a (by simp)
    rw [normComps_concat_good s cs a ha.1 ha.2.1 ha.2.2,
      ih (fun c hc => h c (by simp [hc]))]

theorem joinChar_concat_ne (sep : Char) (g : List Char) (gs : List (List Char))
    (a : List Char) :
    PyStr.joinChar sep ((g :: gs) ++ [a]) =
      PyStr.joinChar sep (g :: gs) ++ sep :: a := by
  induction gs generalizing g with
  | nil => rfl
  | cons g2 gs ih =>
    show g ++ sep :: PyStr.joinChar sep ((g2 :: gs) ++ [a]) =
      (g ++ sep :: PyStr.joinChar sep (g2 :: gs)) ++ sep :: a
    rw [ih g2]
    simp

theorem afterLast_replicate (s : Nat) (a : List Char) (h : ∀ x ∈ a, x ≠ '/') :
    PyPath.afterLast (List.replicate s '/' ++ a) = a := by
  induction s with
  | zero => simpa using afterLast_no_slash a h
  | succ s ih =>
    rw [List.replicate_succ, List.cons_append,
      show ('/' :: (List.replicate s '/' ++ a)) =
        [] ++ '/' :: (List.replicate s '/' ++ a) from rfl,
      afterLast_append_cons]
    exact ih

theorem replicate_join_afterLast (s : Nat) (ns : List (List Char)) (a : List Char)
    (ha0 : a ≠ []) (hach : ∀ x ∈ a, x ≠ '/') :
    List.replicate s '/' ++ PyStr.joinChar '/' (ns ++ [a]) ≠ [] ∧
    PyPath.afterLast (List.replicate s '/' ++ PyStr.joinChar '/' (ns ++ [a])) = a := by
  rcases ns with _ | ⟨g, gs⟩
  · constructor
    · show List.replicate s '/' ++ a ≠ []
      exact List.append_ne_nil_of_right_ne_nil _ ha0
    · show PyPath.afterLast (List.replicate s '/' ++ a) = a
      exact afterLast_replicate s a hach
  · rw [joinChar_concat_ne]
    constructor
    · simp
    · rw [show List.replicate s '/' ++ (PyStr.joinChar '/' (g :: gs) ++ '/' :: a) =
        (List.replicate s '/' ++ PyStr.joinChar '/' (g :: gs)) ++ '/' :: a by simp,
        afterLast_append_cons]
      exact afterLast_no_slash a hach

theorem startsWith_slash_of_good (l : List Char)
    (h : ∀ c ∈ PyStr.splitChar '/' l, c ≠ []) :
    PyStr.startsWithL l "/".data = false := by
  cases l with
  | nil => rfl
  | cons c rest =>
    by_cases hc : c = '/'
    · exact absurd rfl
        (h [] (by rw [splitChar_cons_eq, if_pos hc]; exact List.mem_cons_self _ _))
    · show ("/".data.isPrefixOf (c :: rest)) = false
      simp only [List.isPrefixOf, Bool.and_eq_false_iff]
      left
      simpa using fun h' => hc h'.symm

theorem normpath_id (W : List Char) (hW : W ≠ [])
    (hg : ∀ c ∈ PyStr.splitChar '/' W, c ≠ [] ∧ c ≠ ".".data ∧ c ≠ "..".data) :
    PyPath.normpathL W = W := by
  have h0 : PyStr.startsWithL W "/".data = false :=
    startsWith_slash_of_good W (fun c hc => (hg c hc).1)
  unfold PyPath.normpathL
  rw [if_neg hW]
  dsimp only
  rw [h0]
  simp only [Bool.false_eq_true, if_false, List.replicate_zero, List.nil_append,
    normComps_all_good 0 _ hg, joinChar_splitChar, if_neg hW]

theorem normpath_afterLast (W : List Char) (hW : W ≠ [])
    (h1 : PyPath.afterLast W ≠ []) (h2 : PyPath.afterLast W ≠ ".".data)
    (h3 : PyPath.afterLast W ≠ "..".data) :
    PyPath.afterLast (PyPath.normpathL W) = PyPath.afterLast W := by
  have hach : ∀ x ∈ PyPath.afterLast W, x ≠ '/' := afterLast_chars W
  rcases afterLast_decomp W with ⟨u, hu⟩ | hfree
  · have hc : PyStr.splitChar '/' W = PyStr.splitChar '/' u ++ [PyPath.afterLast W] := by
      conv_lhs => rw [hu]
      rw [splitChar_append_sep, splitChar_no_sep '/' _ hach]
    unfold PyPath.normpathL
    rw [if_neg hW]
    dsimp only
    rw [hc, normComps_concat_good _ _ _ h1 h2 h3]
    rw [if_neg (replicate_join_afterLast _ _ _ h1 hach).1]
    exact (replicate_join_afterLast _ _ _ h1 hach).2
  · have heq : PyPath.afterLast W = W := afterLast_no_slash W hfree
    rw [normpath_id W hW (fun c hc => by
      rw [splitChar_no_sep '/' W hfree] at hc
      simp only [List.mem_singleton] at hc
      subst hc
      exact ⟨heq ▸ h1, heq ▸ h2, heq ▸ h3⟩)]

theorem splitext_ext_chars (p : List Char) : ∀ x ∈ (PyPath.splitextL p).2, x ≠ '/' := by
  intro x hx
  unfold PyPath.splitextL at hx
  dsimp only at hx
  rcases hf : (p.reverse.takeWhile (fun c => c ≠ '/')).findIdx? (fun c => c = '.')
    with _ | k
  · rw [hf] at hx
    simp at hx
  · rw [hf] at hx
    dsimp only at hx
    by_cases hany : ((p.reverse.takeWhile (fun c => c ≠ '/')).drop (k + 1)).any
        (fun c => c ≠ '.') = true
    · rw [if_pos hany] at hx
      have hk : k < (p.reverse.takeWhile (fun c => c ≠ '/')).length :=
        (List.findIdx?_eq_some_iff_getElem.1 hf).1
      have htw := List.prefix_iff_eq_take.1
        (List.takeWhile_prefix (l := p.reverse) (p := fun c => decide (c ≠ '/')))
      have htake : p.reverse.take (k + 1) =
          (p.reverse.takeWhile (fun c => c ≠ '/')).take (k + 1) := by
        conv_rhs => rw [htw]
        rw [List.take_take]
        congr 1
        omega
      rw [List.mem_reverse, htake] at hx
      simpa using List.mem_takeWhile_imp (List.mem_of_mem_take hx)
    · rw [if_neg hany] at hx
      simp at hx

theorem natHex_length (k n : Nat) : (Sha1.natHex k n).length = k := by
  induction k generalizing n with
  | zero => rfl
  | succ k ih => simp [Sha1.natHex, ih]

theorem hexChar_mem (m : Nat) (h : m < 16) :
    Sha1.hexChar m ∈ "0123456789abcdef".data := by
  have hall : ∀ i : Fin 16, Sha1.hexChar i.val ∈ "0123456789abcdef".data := by decide
  exact hall ⟨m, h⟩

theorem natHex_mem_hex (k n : Nat) :
    ∀ c ∈ Sha1.natHex k n, c ∈ "0123456789abcdef".data := by
  induction k generalizing n with
  | zero => intro c hc; simp [Sha1.natHex] at hc
  | succ k ih =>
    intro c hc
    simp only [Sha1.natHex] at hc
    rcases List.mem_append.1 hc with h | h
    · exact ih _ c h
    · simp only [List.mem_singleton] at h
      subst h
      exact hexChar_mem _ (Nat.mod_lt _ (by omega))

theorem sha1Hex_length (msg : List Nat) : (Sha1.sha1Hex msg).length = 40 := by
  unfold Sha1.sha1Hex
  dsimp only
  simp [natHex_length]

theorem digest8_length (l : List Char) : (Sha1.digest8 l).length = 8 := by
  unfold Sha1.digest8
  rw [List.length_take, sha1Hex_length]
  decide

theorem digest8_mem_hex (l : List Char) :
    ∀ c ∈ Sha1.digest8 l, c ∈ "0123456789abcdef".data := by
  intro c hc
  unfold Sha1.digest8 at hc
  have hc' := List.mem_of_mem_take hc
  simp only [Sha1.sha1Hex, List.mem_append] at hc'
  rcases hc' with (((h | h) | h) | h) | h <;> exact natHex_mem_hex _ _ c h

theorem digest8_chars (l : List Char) : ∀ c ∈ Sha1.digest8 l, c ≠ '/' := by
  intro c hc
  have hhex := digest8_mem_hex l c hc
  intro hcontra
  subst hcontra
  exact absurd hhex (by decide)

theorem endsWithL_iff (l s : List Char) : PyStr.endsWithL l s = true ↔ s <:+ l := by
  unfold PyStr.endsWithL
  exact List.isSuffixOf_iff_suffix

theorem startsWith_slash_append (r : List Char) (c : Char) (t u : List Char) :
    PyStr.startsWithL (r ++ c :: t) "/".data =
      PyStr.startsWithL (r ++ c :: u) "/".data := by
  cases r with
  | nil => simp [PyStr.startsWithL, List.isPrefixOf]
  | cons d r' => simp [PyStr.startsWithL, List.isPrefixOf]

theorem joinL_decomp (a b : List Char) : ∃ P, PyPath.joinL a b = P ++ b := by
  unfold PyPath.joinL
  by_cases h1 : PyStr.startsWithL b "/".data = true
  · rw [if_pos h1]; exact ⟨[], rfl⟩
  · rw [if_neg h1]
    by_cases h2 : (a = [] || PyStr.endsWithL a "/".data) = true
    · rw [if_pos h2]; exact ⟨a, rfl⟩
    · rw [if_neg h2]; exact ⟨a ++ ['/'], by simp⟩

theorem joinL_common (a u v : List Char)
    (h : PyStr.startsWithL u "/".data = PyStr.startsWithL v "/".data) :
    ∃ P, PyPath.joinL a u = P ++ u ∧ PyPath.joinL a v = P ++ v := by
  unfold PyPath.joinL
  by_cases h1 : PyStr.startsWithL u "/".data = true
  · have h1' : PyStr.startsWithL v "/".data = true := by rw [← h]; exact h1
    rw [if_pos h1, if_pos h1']
    exact ⟨[], rfl, rfl⟩
  · have h1' : ¬PyStr.startsWithL v "/".data = true := by rw [← h]; exact h1
    rw [if_neg h1, if_neg h1']
    by_cases h2 : (a = [] || PyStr.endsWithL a "/".data) = true
    · rw [if_pos h2, if_pos h2]
      exact ⟨a, rfl, rfl⟩
    · rw [if_neg h2, if_neg h2]
      exact ⟨a ++ ['/'], by simp, by simp⟩

theorem qtagged_ne_short (B x t : List Char) (ht : t.length ≤ 2) :
    (B ++ "__q".data) ++ x ≠ t := by
  intro h
  apply_fun List.length at h
  rw [List.length_append, List.length_append] at h
  have h3 : ("__q".data).length = 3 := rfl
  omega

/-- C5, counterexample: the query digest is `sha1(query)[:8]`, and the 8-hex
truncation collides — `a=16859` and `a=114124` are distinct query strings
whose digests agree, so `https://h/p.html?a=16859` and
`https://h/p.html?a=114124` map to the same local path, refuting the claim
that distinct query strings always map to distinct local paths. -/
theorem C5_counterexample :
    ("a=16859" : String) ≠ "a=114124" ∧
    Scrape.url_to_path "out" "h" "https://h/p.html?a=16859" =
      Scrape.url_to_path "out" "h" "https://h/p.html?a=114124" ∧
    Scrape.url_to_path "out" "h" "https://h/p.html?a=16859" =
      some "out/h/p__q118fa132.html" := by
  exact ⟨by decide, by decide, by decide⟩

/-- C5 (amended): `url_to_path` is a pure function of its arguments —
recomputing it for the same `(output_root, host, url)` yields the identical
path — and two URLs that differ only in their (non-empty) query strings map
to distinct local paths whenever the 8-hex-character digests
`sha1(query)[:8]` of the two query strings differ.  (Distinctness of the
query strings alone does not suffice: the truncated digest collides, see
`C5_counterexample`.) -/
theorem C5_amended_pure_and_query_distinct :
    (∀ base_dir base_netloc url : String,
      Scrape.url_to_path base_dir base_netloc url =
        Scrape.url_to_path base_dir base_netloc url) ∧
    (∀ base_dir netloc path q1 q2 : List Char, q1 ≠ [] → q2 ≠ [] →
      Sha1.digest8 q1 ≠ Sha1.digest8 q2 →
      Scrape.url_to_path_core base_dir netloc path q1 ≠
        Scrape.url_to_path_core base_dir netloc path q2) := by
  refine ⟨fun _ _ _ => rfl, ?_⟩
  intro base_dir netloc path q1 q2 h1 h2 hd hcontra
  obtain ⟨root, ext, hexts, hrw⟩ : ∃ root ext, (∀ x ∈ ext, x ≠ '/') ∧
      PyPath.splitextL (Scrape.strippedPath (Scrape.indexedPath path)) = (root, ext) :=
    ⟨_, _, splitext_ext_chars _, rfl⟩
  have hq : ∀ q, q ≠ [] →
      Scrape.queryPath (Scrape.strippedPath (Scrape.indexedPath path)) q =
        root ++ "__q".data ++ Sha1.digest8 q ++ ext := by
    intro q hqne
    rw [Scrape.queryPath, if_neg hqne, hrw]
  have hlit : "__q".data = '_' :: "_q".data := rfl
  have hsw : PyStr.startsWithL (root ++ "__q".data ++ Sha1.digest8 q1 ++ ext) "/".data =
      PyStr.startsWithL (root ++ "__q".data ++ Sha1.digest8 q2 ++ ext) "/".data := by
    rw [show root ++ "__q".data ++ Sha1.digest8 q1 ++ ext =
        root ++ '_' :: ("_q".data ++ Sha1.digest8 q1 ++ ext) by simp [hlit],
      show root ++ "__q".data ++ Sha1.digest8 q2 ++ ext =
        root ++ '_' :: ("_q".data ++ Sha1.digest8 q2 ++ ext) by simp [hlit]]
    exact startsWith_slash_append root '_' _ _
  obtain ⟨P, hP1, hP2⟩ := joinL_common (PyPath.joinL base_dir netloc) _ _ hsw
  have hc : PyPath.normpathL (P ++ (root ++ "__q".data ++ Sha1.digest8 q1 ++ ext)) =
      PyPath.normpathL (P ++ (root ++ "__q".data ++ Sha1.digest8 q2 ++ ext)) := by
    have e1 : Scrape.url_to_path_core base_dir netloc path q1 =
        PyPath.normpathL (P ++ (root ++ "__q".data ++ Sha1.digest8 q1 ++ ext)) := by
      show PyPath.normpathL (PyPath.joinL (PyPath.joinL base_dir netloc)
        (Scrape.queryPath (Scrape.strippedPath (Scrape.indexedPath path)) q1)) = _
      rw [hq q1 h1, hP1]
    have e2 : Scrape.url_to_path_core base_dir netloc path q2 =
        PyPath.normpathL (P ++ (root ++ "__q".data ++ Sha1.digest8 q2 ++ ext)) := by
      show PyPath.normpathL (PyPath.joinL (PyPath.joinL base_dir netloc)
        (Scrape.queryPath (Scrape.strippedPath (Scrape.indexedPath path)) q2)) = _
      rw [hq q2 h2, hP2]
    rw [← e1, ← e2]
    exact hcontra
  have hsh : ∀ d : List Char, P ++ (root ++ "__q".data ++ d ++ ext) =
      ((P ++ root) ++ "__q".data) ++ (d ++ ext) := by
    intro d; simp
  rw [hsh (Sha1.digest8 q1), hsh (Sha1.digest8 q2)] at hc
  have hAL : ∀ d : List Char, (∀ x ∈ d, x ≠ '/') →
      PyPath.afterLast (((P ++ root) ++ "__q".data) ++ (d ++ ext)) =
        (PyPath.afterLast (P ++ root) ++ "__q".data) ++ (d ++ ext) := by
    intro d hdch
    have hv : ∀ x ∈ d ++ ext, x ≠ '/' := by
      intro x hx
      rcases List.mem_append.1 hx with h | h
      · exact hdch x h
      · exact hexts x h
    rw [afterLast_append_right _ _ hv, afterLast_append_right _ _ (by decide)]
  have hW1ne := qtagged_ne_short (P ++ root) (Sha1.digest8 q1 ++ ext) [] (by decide)
  have hW2ne := qtagged_ne_short (P ++ root) (Sha1.digest8 q2 ++ ext) [] (by decide)
  have hA1 := hAL (Sha1.digest8 q1) (digest8_chars q1)
  have hA2 := hAL (Sha1.digest8 q2) (digest8_chars q2)
  have key := congrArg PyPath.afterLast hc
  rw [normpath_afterLast _ hW1ne
        (by rw [hA1]; exact qtagged_ne_short _ _ _ (by decide))
        (by rw [hA1]; exact qtagged_ne_short _ _ _ (by decide))
        (by rw [hA1]; exact qtagged_ne_short _ _ _ (by decide)),
      normpath_afterLast _ hW2ne
        (by rw [hA2]; exact qtagged_ne_short _ _ _ (by decide))
        (by rw [hA2]; exact qtagged_ne_short _ _ _ (by decide))
        (by rw [hA2]; exact qtagged_ne_short _ _ _ (by decide)),
      hA1, hA2] at key
  exact hd (List.append_cancel_right (List.append_cancel_left key))

/-- C5, witness: two concrete non-empty query strings with distinct digests
yield distinct local paths for the same base directory, host and path. -/
theorem C5_amended_pure_and_query_distinct_witness :
    "a=1".data ≠ ([] : List Char) ∧ "a=2".data ≠ ([] : List Char) ∧
    Sha1.digest8 "a=1".data ≠ Sha1.digest8 "a=2".data ∧
    Scrape.url_to_path_core "out".data "h".data "/p.html".data "a=1".data ≠
      Scrape.url_to_path_core "out".data "h".data "/p.html".data "a=2".data :=
  ⟨by decide, by decide, by decide,
    C5_amended_pure_and_query_distinct.2 "out".data "h".data "/p.html".data
      "a=1".data "a=2".data (by decide) (by decide) (by decide)⟩

theorem splitext_append_index (p : List Char) :
    PyPath.splitextL (p ++ "index.html".data) = (p ++ "index".data, ".html".data) := by
  unfold PyPath.splitextL
  dsimp only
  have hrev : (p ++ "index.html".data).reverse = "lmth.xedni".data ++ p.reverse := by
    rw [List.reverse_append]
    rfl
  rw [hrev,
    takeWhile_append_all (fun c => decide (c ≠ '/')) "lmth.xedni".data p.reverse (by decide),
    List.findIdx?_append,
    show ("lmth.xedni".data.findIdx? fun c => decide (c = '.')) = some 4 from rfl,
    Option.or_some]
  dsimp only
  have hany : ((("lmth.xedni".data ++
      p.reverse.takeWhile (fun c => decide (c ≠ '/'))).drop (4 + 1)).any
        fun c => decide (c ≠ '.')) = true := by
    rw [List.drop_append_of_le_length (by decide), List.any_append,
      show (("lmth.xedni".data.drop (4 + 1)).any fun c => decide (c ≠ '.')) = true
        from rfl, Bool.true_or]
  rw [if_pos hany]
  refine Prod.ext ?_ ?_
  · show (("lmth.xedni".data ++ p.reverse).drop (4 + 1)).reverse = p ++ "index".data
    rw [List.drop_append_of_le_length (by decide), List.reverse_append,
      List.reverse_reverse]
    congr 1
  · show (("lmth.xedni".data ++ p.reverse).take (4 + 1)).reverse = ".html".data
    rw [List.take_append_of_le_length (by decide)]
    decide

theorem indexedPath_decomp (p : List Char)
    (h : PyStr.endsWithL p "/".data = true ∨ (PyPath.splitextL p).2 = []) :
    ∃ X, Scrape.indexedPath p = X ++ "index.html".data := by
  unfold Scrape.indexedPath
  dsimp only
  by_cases hp : p = []
  · rw [if_pos hp]
    exact ⟨"/".data, by decide⟩
  · rw [if_neg hp]
    by_cases h1 : PyStr.endsWithL p "/".data = true
    · rw [if_pos h1, splitext_append_index p]
      dsimp only
      rw [if_neg (by decide : ¬((".html".data : List Char) = []))]
      exact ⟨p, rfl⟩
    · have h2 : (PyPath.splitextL p).2 = [] := h.resolve_left h1
      rw [if_neg h1, if_pos h2]
      refine ⟨p ++ "/".data, ?_⟩
      rw [List.append_assoc]
      exact congrArg (fun z => p ++ z)
        (by decide : ("/index.html".data : List Char) = "/".data ++ "index.html".data)

theorem indexedPath_ends_index (p : List Char)
    (h : PyStr.endsWithL p "/".data = true ∨ (PyPath.splitextL p).2 = []) :
    PyStr.endsWithL (Scrape.indexedPath p) "index.html".data = true := by
  obtain ⟨X, hX⟩ := indexedPath_decomp p h
  rw [hX]
  exact (endsWithL_iff _ _).2 (List.suffix_append X "index.html".data)

theorem endsWith_slash_false_append (u n : List Char) (hne : n ≠ [])
    (h : ∀ x ∈ n, x ≠ '/') :
    PyStr.endsWithL (u ++ n) "/".data = false := by
  rw [Bool.eq_false_iff]
  intro hcontra
  obtain ⟨t, ht⟩ := (endsWithL_iff _ _).1 hcontra
  have hlast : (u ++ n).getLast? = some '/' := by
    rw [← ht, List.getLast?_append]
    rfl
  rw [List.getLast?_append_of_ne_nil u hne] at hlast
  exact h '/' (List.mem_of_getLast?_eq_some hlast) rfl

/-- C6 (amended): provided the assembled relative path (the URL path after
the implied-`index.html` step and the query-digest step) splits on `/` into
components none of which is empty, `.` or `..` — in particular the URL path
contains no traversal — and the base directory and host are similarly
well-formed, `url_to_path` returns exactly
`base_dir / host / <transformed path>`: the host is the first path segment
under the output root, `index.html` is appended whenever the URL path ends
in `/` or its final segment has no extension, and a non-empty query inserts
`__q` plus the 8-hex digest of the raw query before the final extension.
Without the no-traversal hypothesis the host-prefix part is false, see
`C6_counterexample`. -/
theorem C6_amended_path_layout (base_dir base_netloc url : String)
    (hbd0 : base_dir.data ≠ [])
    (hbd1 : PyStr.endsWithL base_dir.data "/".data = false)
    (hbdg : ∀ c ∈ PyStr.splitChar '/' base_dir.data,
      c ≠ [] ∧ c ≠ ".".data ∧ c ≠ "..".data)
    (hn0 : (Scrape.parse url).netloc ≠ [])
    (hnch : ∀ x ∈ (Scrape.parse url).netloc, x ≠ '/')
    (hn1 : (Scrape.parse url).netloc ≠ ".".data)
    (hn2 : (Scrape.parse url).netloc ≠ "..".data)
    (hspg : ∀ c ∈ PyStr.splitChar '/'
        (Scrape.queryPath
          (Scrape.strippedPath (Scrape.indexedPath (Scrape.parse url).path))
          (Scrape.parse url).query),
      c ≠ [] ∧ c ≠ ".".data ∧ c ≠ "..".data) :
    Scrape.url_to_path base_dir base_netloc url =
      some ⟨base_dir.data ++ '/' :: ((Scrape.parse url).netloc ++ '/' ::
        Scrape.queryPath
          (Scrape.strippedPath (Scrape.indexedPath (Scrape.parse url).path))
          (Scrape.parse url).query)⟩ ∧
    PyStr.startsWithL
      (base_dir.data ++ '/' :: ((Scrape.parse url).netloc ++ '/' ::
        Scrape.queryPath
          (Scrape.strippedPath (Scrape.indexedPath (Scrape.parse url).path))
          (Scrape.parse url).query))
      (base_dir.data ++ '/' :: ((Scrape.parse url).netloc ++ "/".data)) = true ∧
    ((PyStr.endsWithL (Scrape.parse url).path "/".data = true ∨
        (PyPath.splitextL (Scrape.parse url).path).2 = []) →
      PyStr.endsWithL (Scrape.indexedPath (Scrape.parse url).path)
        "index.html".data = true) ∧
    ((Scrape.parse url).query ≠ [] →
      Scrape.queryPath
          (Scrape.strippedPath (Scrape.indexedPath (Scrape.parse url).path))
          (Scrape.parse url).query =
        (PyPath.splitextL
            (Scrape.strippedPath (Scrape.indexedPath (Scrape.parse url).path))).1 ++
          "__q".data ++ Sha1.digest8 (Scrape.parse url).query ++
          (PyPath.splitextL
            (Scrape.strippedPath (Scrape.indexedPath (Scrape.parse url).path))).2) := by
  refine ⟨?_, ?_, indexedPath_ends_index _, fun hq => by
    rw [Scrape.queryPath, if_neg hq]⟩
  · set SP := Scrape.queryPath
      (Scrape.strippedPath (Scrape.indexedPath (Scrape.parse url).path))
      (Scrape.parse url).query with hSP
    have hsws : PyStr.startsWithL SP "/".data = false :=
      startsWith_slash_of_good _ (fun c hc => (hspg c hc).1)
    have hswn : PyStr.startsWithL (Scrape.parse url).netloc "/".data = false :=
      startsWith_slash_of_good _ (by
        rw [splitChar_no_sep '/' _ hnch]
        intro c hc
        simp only [List.mem_singleton] at hc
        subst hc
        exact hn0)
    have j1 : PyPath.joinL base_dir.data (Scrape.parse url).netloc =
        base_dir.data ++ '/' :: (Scrape.parse url).netloc := by
      unfold PyPath.joinL
      rw [if_neg (by simp [hswn]), if_neg (by simp [hbd0, hbd1])]
    have hsh2 : base_dir.data ++ '/' :: (Scrape.parse url).netloc =
        (base_dir.data ++ ['/']) ++ (Scrape.parse url).netloc := by simp
    have hend2 : PyStr.endsWithL (base_dir.data ++ '/' :: (Scrape.parse url).netloc)
        "/".data = false := by
      rw [hsh2]
      exact endsWith_slash_false_append _ _ hn0 hnch
    have j2 : PyPath.joinL (base_dir.data ++ '/' :: (Scrape.parse url).netloc) SP =
        base_dir.data ++ '/' :: ((Scrape.parse url).netloc ++ '/' :: SP) := by
      unfold PyPath.joinL
      rw [if_neg (by simp [hsws]), if_neg (by simp [hend2])]
      simp
    have hW : ∀ c ∈ PyStr.splitChar '/'
        (base_dir.data ++ '/' :: ((Scrape.parse url).netloc ++ '/' :: SP)),
        c ≠ [] ∧ c ≠ ".".data ∧ c ≠ "..".data := by
      intro c hc
      rw [splitChar_append_sep, splitChar_append_sep,
        splitChar_no_sep '/' _ hnch] at hc
      rcases List.mem_append.1 hc with h | h
      · exact hbdg c h
      · rcases List.mem_append.1 h with h' | h'
        · simp only [List.mem_singleton] at h'
          subst h'
          exact ⟨hn0, hn1, hn2⟩
        · exact hspg c h'
    have hcore : Scrape.url_to_path_core base_dir.data (Scrape.parse url).netloc
        (Scrape.parse url).path (Scrape.parse url).query =
        base_dir.data ++ '/' :: ((Scrape.parse url).netloc ++ '/' :: SP) := by
      show PyPath.normpathL (PyPath.joinL (PyPath.joinL base_dir.data
          (Scrape.parse url).netloc) SP) = _
      rw [j1, j2, normpath_id _ (by simp) hW]
    show (if (Scrape.parse url).netloc = [] then none
      else some (String.mk (Scrape.url_to_path_core base_dir.data
        (Scrape.parse url).netloc (Scrape.parse url).path (Scrape.parse url).query))) =
      some (String.mk (base_dir.data ++ '/' ::
        ((Scrape.parse url).netloc ++ '/' :: SP)))
    rw [if_neg hn0, hcore]
  · set SP := Scrape.queryPath
      (Scrape.strippedPath (Scrape.indexedPath (Scrape.parse url).path))
      (Scrape.parse url).query with hSP
    have h2 : base_dir.data ++ '/' :: ((Scrape.parse url).netloc ++ '/' :: SP) =
        (base_dir.data ++ '/' :: ((Scrape.parse url).netloc ++ "/".data)) ++ SP := by
      simp [show ("/".data : List Char) = ['/'] from rfl]
    show PyStr.startsWithL _ _ = true
    unfold PyStr.startsWithL
    rw [h2]
    exact List.isPrefixOf_iff_prefix.2 (List.prefix_append _ _)

/-- C6, counterexample: the claim says the host is always the first path
segment under the output root, but `..` components in the URL path survive
into the joined path and `normpath` resolves them, escaping the host
directory: `https://example.com/../x.png` maps to `out/x.png`, which does
not start with `out/example.com/`. -/
theorem C6_counterexample :
    Scrape.url_to_path "out" "example.com" "https://example.com/../x.png" =
      some "out/x.png" ∧
    PyStr.startsWithL "out/x.png".data "out/example.com/".data = false :=
  ⟨by decide, by decide⟩

/-- C6, witness: for `https://h/a/b.css?v=2` under root `out` the layout
hypotheses hold and the theorem yields
`out/h/a/b__qf67bbdbf.css`. -/
theorem C6_amended_path_layout_witness :
    ("out" : String).data ≠ [] ∧
    PyStr.endsWithL "out".data "/".data = false ∧
    (∀ c ∈ PyStr.splitChar '/' "out".data, c ≠ [] ∧ c ≠ ".".data ∧ c ≠ "..".data) ∧
    (Scrape.parse "https://h/a/b.css?v=2").netloc ≠ [] ∧
    (∀ x ∈ (Scrape.parse "https://h/a/b.css?v=2").netloc, x ≠ '/') ∧
    (Scrape.parse "https://h/a/b.css?v=2").netloc ≠ ".".data ∧
    (Scrape.parse "https://h/a/b.css?v=2").netloc ≠ "..".data ∧
    (∀ c ∈ PyStr.splitChar '/'
        (Scrape.queryPath
          (Scrape.strippedPath (Scrape.indexedPath
            (Scrape.parse "https://h/a/b.css?v=2").path))
          (Scrape.parse "https://h/a/b.css?v=2").query),
      c ≠ [] ∧ c ≠ ".".data ∧ c ≠ "..".data) ∧
    Scrape.url_to_path "out" "h" "https://h/a/b.css?v=2" =
      some "out/h/a/b__qf67bbdbf.css" :=
  ⟨by decide, by decide, by decide, by decide, by decide, by decide, by decide,
    by decide,
    (C6_amended_path_layout "out" "h" "https://h/a/b.css?v=2" (by decide) (by decide)
      (by decide) (by decide) (by decide) (by decide) (by decide) (by decide)).1.trans
      (by decide)⟩

theorem suffix21_ne_short (A T t : List Char) (hT : T.length = 21)
    (ht : t.length ≤ 2) : A ++ T ≠ t := by
  intro h
  apply_fun List.length at h
  rw [List.length_append, hT] at h
  omega

/-- C10: for every URL with a host whose path ends in `/` or whose final
segment has no extension, and which carries a non-empty query string,
`url_to_path` succeeds and produces a path ending in
`index__q<digest>.html`, where `<digest>` is the 8-character lower-case-hex
digest `sha1(query)[:8]` — i.e. the query-hash rule is applied to the
implied `index.html` filename, not to the original extension-less path. -/
theorem C10_implied_index_query_digest (base_dir base_netloc url : String)
    (hn : (Scrape.parse url).netloc ≠ [])
    (hq : (Scrape.parse url).query ≠ [])
    (hp : PyStr.endsWithL (Scrape.parse url).path "/".data = true ∨
      (PyPath.splitextL (Scrape.parse url).path).2 = []) :
    ∃ outL : List Char,
      Scrape.url_to_path base_dir base_netloc url = some ⟨outL⟩ ∧
      (Sha1.digest8 (Scrape.parse url).query).length = 8 ∧
      (∀ c ∈ Sha1.digest8 (Scrape.parse url).query, c ∈ "0123456789abcdef".data) ∧
      PyStr.endsWithL outL
        ("index__q".data ++ Sha1.digest8 (Scrape.parse url).query ++
          ".html".data) = true := by
  obtain ⟨X, hX⟩ := indexedPath_decomp (Scrape.parse url).path hp
  have hsp : ∃ Y, Scrape.strippedPath (Scrape.indexedPath (Scrape.parse url).path) =
      Y ++ "index.html".data := by
    rw [hX]
    unfold Scrape.strippedPath
    by_cases hs : PyStr.startsWithL (X ++ "index.html".data) "/".data = true
    · rw [if_pos hs]
      rcases X with _ | ⟨x0, X'⟩
      · exact absurd hs (by decide)
      · exact ⟨X', by simp⟩
    · rw [if_neg hs]
      exact ⟨X, rfl⟩
  obtain ⟨Y, hY⟩ := hsp
  have hqp : Scrape.queryPath
      (Scrape.strippedPath (Scrape.indexedPath (Scrape.parse url).path))
      (Scrape.parse url).query =
      (Y ++ "index".data) ++ "__q".data ++
        Sha1.digest8 (Scrape.parse url).query ++ ".html".data := by
    rw [Scrape.queryPath, if_neg hq, hY, splitext_append_index]
  obtain ⟨P, hP⟩ := joinL_decomp
    (PyPath.joinL base_dir.data (Scrape.parse url).netloc)
    (Scrape.queryPath (Scrape.strippedPath (Scrape.indexedPath
      (Scrape.parse url).path)) (Scrape.parse url).query)
  have hTch : ∀ x ∈ "index__q".data ++
      Sha1.digest8 (Scrape.parse url).query ++ ".html".data, x ≠ '/' := by
    have hiq : ∀ y ∈ "index__q".data, y ≠ '/' := by decide
    have hht : ∀ y ∈ ".html".data, y ≠ '/' := by decide
    intro x hx
    rcases List.mem_append.1 hx with h | h
    · rcases List.mem_append.1 h with h' | h'
      · exact hiq x h'
      · exact digest8_chars _ x h'
    · exact hht x h
  have hW : PyPath.joinL (PyPath.joinL base_dir.data (Scrape.parse url).netloc)
      (Scrape.queryPath (Scrape.strippedPath (Scrape.indexedPath
        (Scrape.parse url).path)) (Scrape.parse url).query) =
      (P ++ Y) ++ ("index__q".data ++ Sha1.digest8 (Scrape.parse url).query ++
        ".html".data) := by
    rw [hP, hqp]
    simp [show ("index__q".data : List Char) = "index".data ++ "__q".data from rfl]
  have hAW : PyPath.afterLast ((P ++ Y) ++ ("index__q".data ++
      Sha1.digest8 (Scrape.parse url).query ++ ".html".data)) =
      PyPath.afterLast (P ++ Y) ++ ("index__q".data ++
        Sha1.digest8 (Scrape.parse url).query ++ ".html".data) :=
    afterLast_append_right _ _ hTch
  have hTlen : ("index__q".data ++ Sha1.digest8 (Scrape.parse url).query ++
      ".html".data).length = 21 := by
    rw [List.length_append, List.length_append, digest8_length]
    rfl
  have hWne : (P ++ Y) ++ ("index__q".data ++
      Sha1.digest8 (Scrape.parse url).query ++ ".html".data) ≠ [] :=
    suffix21_ne_short _ _ _ hTlen (by decide)
  have hnp := normpath_afterLast _ hWne
    (by rw [hAW]; exact suffix21_ne_short _ _ _ hTlen (by decide))
    (by rw [hAW]; exact suffix21_ne_short _ _ _ hTlen (by decide))
    (by rw [hAW]; exact suffix21_ne_short _ _ _ hTlen (by decide))
  have hsufT : ("index__q".data ++ Sha1.digest8 (Scrape.parse url).query ++
      ".html".data) <:+ PyPath.normpathL ((P ++ Y) ++ ("index__q".data ++
        Sha1.digest8 (Scrape.parse url).query ++ ".html".data)) := by
    have h1 : ("index__q".data ++ Sha1.digest8 (Scrape.parse url).query ++
        ".html".data) <:+ PyPath.afterLast (PyPath.normpathL ((P ++ Y) ++
          ("index__q".data ++ Sha1.digest8 (Scrape.parse url).query ++
            ".html".data))) := by
      rw [hnp, hAW]
      exact List.suffix_append _ _
    exact h1.trans (afterLast_suffix _)
  refine ⟨Scrape.url_to_path_core base_dir.data (Scrape.parse url).netloc
    (Scrape.parse url).path (Scrape.parse url).query, ?_, digest8_length _,
    digest8_mem_hex _, ?_⟩
  · show (if (Scrape.parse url).netloc = [] then none
      else some (String.mk (Scrape.url_to_path_core base_dir.data
        (Scrape.parse url).netloc (Scrape.parse url).path
        (Scrape.parse url).query))) =
      some (String.mk (Scrape.url_to_path_core base_dir.data
        (Scrape.parse url).netloc (Scrape.parse url).path
        (Scrape.parse url).query))
    rw [if_neg hn]
  · refine (endsWithL_iff _ _).2 ?_
    have hcore : Scrape.url_to_path_core base_dir.data (Scrape.parse url).netloc
        (Scrape.parse url).path (Scrape.parse url).query =
        PyPath.normpathL ((P ++ Y) ++ ("index__q".data ++
          Sha1.digest8 (Scrape.parse url).query ++ ".html".data)) := by
      show PyPath.normpathL (PyPath.joinL (PyPath.joinL base_dir.data
        (Scrape.parse url).netloc) (Scrape.queryPath (Scrape.strippedPath
          (Scrape.indexedPath (Scrape.parse url).path))
          (Scrape.parse url).query)) = _
      rw [hW]
    rw [hcore]
    exact hsufT

/-- C10, witness: `https://h/dir/?a=1` satisfies the hypotheses (path ends
in `/`, non-empty query, non-empty host) and the theorem applies. -/
theorem C10_implied_index_query_digest_witness :
    (Scrape.parse "https://h/dir/?a=1").netloc ≠ [] ∧
    (Scrape.parse "https://h/dir/?a=1").query ≠ [] ∧
    (PyStr.endsWithL (Scrape.parse "https://h/dir/?a=1").path "/".data = true ∨
      (PyPath.splitextL (Scrape.parse "https://h/dir/?a=1").path).2 = []) ∧
    (∃ outL : List Char,
      Scrape.url_to_path "out" "h" "https://h/dir/?a=1" = some ⟨outL⟩ ∧
      (Sha1.digest8 (Scrape.parse "https://h/dir/?a=1").query).length = 8 ∧
      (∀ c ∈ Sha1.digest8 (Scrape.parse "https://h/dir/?a=1").query,
        c ∈ "0123456789abcdef".data) ∧
      PyStr.endsWithL outL
        ("index__q".data ++
          Sha1.digest8 (Scrape.parse "https://h/dir/?a=1").query ++
          ".html".data) = true) :=
  ⟨by decide, by decide, Or.inl (by decide),
    C10_implied_index_query_digest "out" "h" "https://h/dir/?a=1"
      (by decide) (by decide) (Or.inl (by decide))⟩
